import Mathlib

/-!
Verification of the AquaPredict feature-engineering core
(`modules/feature-engineering/feature_engineer.py`) and the spatial
cross-validation splitter (`modules/modeling/spatial_cv.py`).

Floating-point cells are modelled exactly: a cell is either `nan` (the
missing-value marker), a signed infinity, or a finite rational.  The numpy
elementwise operations used by the source are translated with their IEEE
NaN-propagation behaviour (`np.maximum` propagates NaN, `0/0 = NaN`,
`sqrt` of a negative is NaN, `np.mean`/`np.std`/`np.min`/`np.max` propagate
NaN).  Irrational scalar functions (square root, arctangent, radian-degree
conversion, tangent, logarithm) are abstracted as fields of a `RealOps`
record constrained only by the identities the source relies on
(`sqrt 0 = 0`, `atan 0 = 0`, conversion of 0 is 0); every theorem that
depends on them quantifies over all such records.

2-D grids and [time, pixel] series are both `List (List FVal)`; the
per-pixel loops of the source (over `(i, j)` of a `lat × lon` grid) are
modelled over the flattened pixel index, exactly as the source itself
flattens with `reshape(n_times, -1)` for its rolling and regression steps.
-/

inductive FVal where
  | nan : FVal
  | inf : Bool → FVal
  | fin : ℚ → FVal
deriving DecidableEq, Repr

namespace FVal

/-- IEEE negation. -/
def fneg : FVal → FVal
  | nan => nan
  | inf s => inf (!s)
  | fin q => fin (-q)

/-- IEEE addition: NaN propagates, opposite infinities give NaN. -/
def fadd : FVal → FVal → FVal
  | nan, _ => nan
  | _, nan => nan
  | inf s, inf t => if s = t then inf s else nan
  | inf s, fin _ => inf s
  | fin _, inf t => inf t
  | fin a, fin b => fin (a + b)

def fsub (x y : FVal) : FVal := fadd x (fneg y)

/-- IEEE multiplication: NaN propagates, `0 * ∞ = NaN`. -/
def fmul : FVal → FVal → FVal
  | nan, _ => nan
  | _, nan => nan
  | inf s, inf t => inf (s = t)
  | inf s, fin q => if q = 0 then nan else inf (if 0 < q then s else !s)
  | fin q, inf s => if q = 0 then nan else inf (if 0 < q then s else !s)
  | fin a, fin b => fin (a * b)

/-- IEEE division: NaN propagates, `0/0 = NaN`, `x/0 = ±∞` for `x ≠ 0`
(the model has a single zero, treated as `+0`), `x/∞ = 0`, `∞/∞ = NaN`. -/
def fdiv : FVal → FVal → FVal
  | nan, _ => nan
  | _, nan => nan
  | inf _, inf _ => nan
  | inf s, fin q => inf (if 0 ≤ q then s else !s)
  | fin _, inf _ => fin 0
  | fin a, fin b =>
      if b = 0 then (if a = 0 then nan else inf (if 0 < a then true else false))
      else fin (a / b)

/-- `np.maximum`: propagates NaN (unlike `fmax` of Python's `max`). -/
def fmax : FVal → FVal → FVal
  | nan, _ => nan
  | _, nan => nan
  | inf s, y => if s then inf true else y
  | x, inf s => if s then inf true else x
  | fin a, fin b => fin (max a b)

/-- `np.minimum`: propagates NaN. -/
def fmin : FVal → FVal → FVal
  | nan, _ => nan
  | _, nan => nan
  | inf s, y => if s then y else inf false
  | x, inf s => if s then x else inf false
  | fin a, fin b => fin (min a b)

/-- `np.sqrt` given an exact square-root stand-in `s` on nonnegative
rationals: NaN for negative arguments (the source filters numpy warnings,
so the NaN is silent), `+∞ ↦ +∞`, `-∞ ↦ NaN`. -/
def fsqrt (s : ℚ → ℚ) : FVal → FVal
  | nan => nan
  | inf b => if b then inf true else nan
  | fin q => if q < 0 then nan else fin (s q)

/-- `np.log` given a logarithm stand-in `l` on positive rationals:
`log 0 = -∞`, `log` of a negative is NaN. -/
def flog (l : ℚ → ℚ) : FVal → FVal
  | nan => nan
  | inf b => if b then inf true else nan
  | fin q => if q < 0 then nan else if q = 0 then inf false else fin (l q)

def isNan : FVal → Bool
  | nan => true
  | _ => false

def isInf : FVal → Bool
  | inf _ => true
  | _ => false

/-- numpy comparison `x > 0` (False on NaN). -/
def fgt0 : FVal → Bool
  | nan => false
  | inf b => b
  | fin q => decide (0 < q)

end FVal

open FVal

/-- The irrational scalar functions the source applies through
numpy/scipy, abstracted with exactly the algebraic facts the
verification needs. `atan2v` models `np.arctan2` on whole cells. -/
structure RealOps where
  sqrt : ℚ → ℚ
  atan : ℚ → ℚ
  rad2deg : ℚ → ℚ
  tan : ℚ → ℚ
  log : ℚ → ℚ
  atanInf : Bool → ℚ
  atan2v : FVal → FVal → FVal
  mod360 : FVal → FVal
  sqrt_nonneg : ∀ q : ℚ, 0 ≤ q → 0 ≤ sqrt q
  sqrt_zero : sqrt 0 = 0
  atan_zero : atan 0 = 0
  rad2deg_zero : rad2deg 0 = 0

/-- A concrete executable instance of `RealOps`, used to evaluate the
embedding at concrete inputs.  The numeric values of the stand-ins are
irrelevant to every concrete evaluation below (each one only exercises the
constrained identities), so any record satisfying the constraints serves. -/
def ratOps : RealOps where
  sqrt := fun q => if q ≤ 0 then 0 else 1
  atan := fun q => if q = 0 then 0 else 1
  rad2deg := fun q => q
  tan := fun q => q
  log := fun _ => 0
  atanInf := fun _ => 0
  atan2v := fun _ _ => FVal.fin 0
  mod360 := fun x => x
  sqrt_nonneg := by intro q _; dsimp only; split <;> norm_num
  sqrt_zero := by norm_num
  atan_zero := by norm_num
  rad2deg_zero := rfl

/-- Lift a scalar `ℚ → ℚ` function to cells; `pinf`/`ninf` give its
limits at `±∞` and NaN propagates. -/
def fmono (f : ℚ → ℚ) (pinf ninf : FVal) : FVal → FVal
  | FVal.nan => FVal.nan
  | FVal.inf b => if b then pinf else ninf
  | FVal.fin q => FVal.fin (f q)

/-! ## Time-series grids

A time-series grid is a list of time rows, each row a list of cells at the
flattened pixel index (the source's own `reshape(shape[0], -1)` layout). -/

/-- `List (List FVal)` time-series / 2-D array value. -/
abbrev ArrV : Type := List (List FVal)

/-- Number of pixel columns (width of the first row), the source's
`shape` product over the non-time axes. -/
def ncols (s : ArrV) : ℕ := (s.headD []).length

/-- A well-formed (rectangular) array: every row has the common width. -/
def ArrWF (s : ArrV) : Prop := ∀ r ∈ s, r.length = ncols s

instance (s : ArrV) : Decidable (ArrWF s) := by unfold ArrWF; infer_instance

/-- The scalar time series of one pixel: the source's `data[:, i, j]`. -/
def column (p : ℕ) (s : ArrV) : List FVal := s.map (fun r => r.getD p FVal.nan)

/-- One trailing window of `pandas.rolling(window=w)`: the at-most-`w`
entries ending at time `t`. -/
def rollWindow (col : List FVal) (w t : ℕ) : List FVal :=
  (col.take (t + 1)).drop (t + 1 - w)

/-- `pandas.DataFrame.rolling(window=w, min_periods=1).sum()` on one
column: NaN entries are skipped in the sum; a window with no non-NaN entry
(fewer than `min_periods = 1` observations) yields NaN. -/
def rollingSumCol (col : List FVal) (w : ℕ) : List FVal :=
  (List.range col.length).map fun t =>
    let valid := (rollWindow col w t).filter (fun x => !x.isNan)
    if valid.isEmpty then FVal.nan else valid.foldr fadd (FVal.fin 0)

/-- `FeatureEngineer._rolling_sum(data, window, axis=0)`: the pandas
rolling sum applied to every pixel column of the reshaped 2-D view,
then reshaped back. -/
def rollingSum (s : ArrV) (w : ℕ) : ArrV :=
  (List.range s.length).map fun t =>
    (List.range (ncols s)).map fun p => (rollingSumCol (column p s) w).getD t FVal.nan

example : rollingSum [[fin 1, nan], [nan, fin 2], [fin 3, fin 4]] 1
    = [[fin 1, nan], [nan, fin 2], [fin 3, fin 4]] := by
  simp [rollingSum, rollingSumCol, rollWindow, column, ncols, fadd, FVal.isNan, List.range_succ]
example : rollingSum [[fin 1], [nan], [fin 3]] 2 = [[fin 1], [fin 1], [fin 3]] := by
  simp [rollingSum, rollingSumCol, rollWindow, column, ncols, fadd, FVal.isNan, List.range_succ]

/-- Reconstructing a list from its `getD` values over its index range. -/
lemma map_range_getD {α : Type} (r : List α) (d : α) :
    (List.range r.length).map (fun p => r.getD p d) = r := by
  apply List.ext_getElem
  · simp
  · intro i h1 h2
    simp only [List.getElem_map, List.getElem_range]
    rw [List.getD_eq_getElem r d h2]

lemma rollWindow_one (col : List FVal) (t : ℕ) (h : t < col.length) :
    rollWindow col 1 t = [col.getD t FVal.nan] := by
  induction col generalizing t with
  | nil => simp at h
  | cons c cs ih =>
    cases t with
    | zero => simp [rollWindow]
    | succ t =>
      have ht : t < cs.length := by simpa using h
      have := ih t ht
      simp only [rollWindow] at this ⊢
      simpa [List.take_succ_cons, Nat.succ_sub_one] using this

lemma fadd_fin_zero (x : FVal) (hx : x ≠ FVal.nan) : fadd x (FVal.fin 0) = x := by
  cases x with
  | nan => exact absurd rfl hx
  | inf s => rfl
  | fin q => simp [fadd]

lemma rollingSumCol_one (col : List FVal) : rollingSumCol col 1 = col := by
  unfold rollingSumCol
  apply List.ext_getElem
  · simp
  · intro i h1 h2
    have hi : i < col.length := by simpa using h1
    simp only [List.getElem_map, List.getElem_range]
    rw [rollWindow_one col i hi, List.getD_eq_getElem col FVal.nan hi]
    cases hx : col[i] with
    | nan => simp [FVal.isNan]
    | inf s => simp [FVal.isNan, fadd]
    | fin q => simp [FVal.isNan, fadd]

/-- C8: the rolling sum with window size 1 is the identity: on every
rectangular time-series grid, including one containing missing values,
`_rolling_sum(data, 1, axis=0)` returns the input unchanged (not a
cumulative sum). -/
theorem rolling_sum_window_one_identity (s : ArrV) (hwf : ArrWF s) :
    rollingSum s 1 = s := by
  unfold rollingSum
  apply List.ext_getElem
  · simp
  · intro t h1 h2
    simp only [List.getElem_map, List.getElem_range]
    have ht : t < s.length := by simpa using h1
    apply List.ext_getElem
    · simp [hwf s[t] (List.getElem_mem h2)]
    · intro p hp1 hp2
      simp only [List.getElem_map, List.getElem_range]
      rw [rollingSumCol_one]
      have hcol : (column p s).getD t FVal.nan = s[t].getD p FVal.nan := by
        unfold column
        rw [List.getD_eq_getElem _ _ (by simpa using ht), List.getElem_map]
      rw [hcol, List.getD_eq_getElem]

theorem rolling_sum_window_one_identity_witness :
    ArrWF [[fin 1, nan], [nan, fin 2], [fin 3, fin 4]] ∧
      rollingSum [[fin 1, nan], [nan, fin 2], [fin 3, fin 4]] 1
        = [[fin 1, nan], [nan, fin 2], [fin 3, fin 4]] :=
  ⟨by simp [ArrWF, ncols],
   rolling_sum_window_one_identity _ (by simp [ArrWF, ncols])⟩

/-! ## Lag features (`FeatureEngineer.create_lag_features`) -/

/-- `np.roll(data, lag, axis=0)`: time row `t` of the result is row
`(t - lag) mod T` of the input. -/
def nproll (s : ArrV) (lag : ℕ) : ArrV :=
  (List.range s.length).map fun (t : ℕ) =>
    s.getD ((((t : ℤ) - (lag : ℤ)) % (s.length : ℤ)).toNat) []

/-- The in-place slice assignment `arr[:lag] = np.nan`: the first `lag`
time rows are overwritten with NaN rows of the same width. -/
def setHeadNaN (s : ArrV) (lag : ℕ) : ArrV :=
  (List.range s.length).map fun t =>
    if t < lag then (s.getD t []).map (fun _ => FVal.nan) else s.getD t []

/-- `FeatureEngineer.create_lag_features(data, lag_periods)`: for each
requested lag strictly below the series length, the rolled copy with its
first `lag` rows set to NaN, keyed by the lag (the source keys the dict by
the string `lag_{lag}`); other lags produce no entry. -/
def createLagFeatures (s : ArrV) (lagPeriods : List ℕ) : List (ℕ × ArrV) :=
  (lagPeriods.filter (fun lag => lag < s.length)).map
    (fun lag => (lag, setHeadNaN (nproll s lag) lag))

example : createLagFeatures [[fin 1], [fin 2], [fin 3]] [1, 4]
    = [(1, [[nan], [fin 1], [fin 2]])] := by
  decide

lemma getD_row_mem (s : ArrV) (t : ℕ) (ht : t < s.length) : s.getD t [] ∈ s := by
  rw [List.getD_eq_getElem _ _ ht]
  exact List.getElem_mem ht

lemma nproll_getD_of_le (s : ArrV) (lag t : ℕ) (hlag : lag ≤ t) (ht : t < s.length) :
    (nproll s lag).getD t [] = s.getD (t - lag) [] := by
  unfold nproll
  rw [List.getD_eq_getElem _ _ (by simpa using ht), List.getElem_map, List.getElem_range]
  have h1 : ((t : ℤ) - lag) % (s.length : ℤ) = (t : ℤ) - lag :=
    Int.emod_eq_of_lt (by omega) (by omega)
  rw [h1]
  congr 1
  omega

lemma nproll_length (s : ArrV) (lag : ℕ) : (nproll s lag).length = s.length := by
  simp [nproll]

lemma setHeadNaN_length (s : ArrV) (lag : ℕ) : (setHeadNaN s lag).length = s.length := by
  simp [setHeadNaN]

lemma setHeadNaN_getD (s : ArrV) (lag t : ℕ) (hlen : t < s.length) :
    (setHeadNaN s lag).getD t []
      = if t < lag then (s.getD t []).map (fun _ => FVal.nan) else s.getD t [] := by
  unfold setHeadNaN
  rw [List.getD_eq_getElem _ _ (by simpa using hlen), List.getElem_map, List.getElem_range]

lemma nproll_getD_of_lt (s : ArrV) (lag t : ℕ) (ht : t < s.length) :
    ∃ u, u < s.length ∧ (nproll s lag).getD t [] = s.getD u [] := by
  unfold nproll
  rw [List.getD_eq_getElem _ _ (by simpa using ht), List.getElem_map, List.getElem_range]
  refine ⟨((((t : ℤ) - (lag : ℤ)) % (s.length : ℤ)).toNat), ?_, rfl⟩
  have h0 : (0 : ℤ) < (s.length : ℤ) := by omega
  have h2 := Int.emod_lt_of_pos ((t : ℤ) - (lag : ℤ)) h0
  have h3 := Int.emod_nonneg ((t : ℤ) - (lag : ℤ)) (by omega : (s.length : ℤ) ≠ 0)
  omega

lemma mem_createLagFeatures (s : ArrV) (lags : List ℕ) (L : ℕ) (g : ArrV) :
    (L, g) ∈ createLagFeatures s lags ↔
      L ∈ lags ∧ L < s.length ∧ g = setHeadNaN (nproll s L) L := by
  unfold createLagFeatures
  simp only [List.mem_map, List.mem_filter, Prod.mk.injEq, decide_eq_true_eq]
  constructor
  · rintro ⟨a, ⟨ha, halt⟩, rfl, rfl⟩
    exact ⟨ha, halt, rfl⟩
  · rintro ⟨ha, halt, rfl⟩
    exact ⟨L, ⟨ha, halt⟩, rfl, rfl⟩

/-- C7: `create_lag_features` with a requested lag `0 < L < T` on a `T`-row
series yields a grid of identical shape whose first `L` time rows are all
NaN and whose row `t ≥ L` equals input row `t - L`; a requested lag
`L ≥ T` contributes no output entry (and raises nothing: the embedding is
total). -/
theorem lag_features_shift (s : ArrV) (lags : List ℕ) (L : ℕ)
    (hwf : ArrWF s) (hmem : L ∈ lags) (hL : 0 < L) :
    (L < s.length →
      ∃ g, (L, g) ∈ createLagFeatures s lags ∧
        g.length = s.length ∧
        (∀ t, t < s.length → (g.getD t []).length = ncols s) ∧
        (∀ t, t < L → g.getD t [] = List.replicate (ncols s) FVal.nan) ∧
        (∀ t, L ≤ t → t < s.length → g.getD t [] = s.getD (t - L) [])) ∧
    (s.length ≤ L → ∀ g, (L, g) ∉ createLagFeatures s lags) := by
  constructor
  · intro hlt
    refine ⟨setHeadNaN (nproll s L) L,
      (mem_createLagFeatures s lags L _).mpr ⟨hmem, hlt, rfl⟩, ?_, ?_, ?_, ?_⟩
    · rw [setHeadNaN_length, nproll_length]
    · intro t ht
      have htr : t < (nproll s L).length := by rw [nproll_length]; exact ht
      rw [setHeadNaN_getD _ _ _ htr]
      by_cases hcmp : t < L
      · rw [if_pos hcmp]
        obtain ⟨u, hu, hroll⟩ := nproll_getD_of_lt s L t ht
        rw [hroll, List.length_map]
        exact hwf _ (getD_row_mem s u hu)
      · rw [if_neg hcmp]
        rw [nproll_getD_of_le s L t (by omega) ht]
        exact hwf _ (getD_row_mem s (t - L) (by omega))
    · intro t ht
      have htl : t < s.length := lt_of_lt_of_le ht (le_of_lt hlt)
      have htr : t < (nproll s L).length := by rw [nproll_length]; exact htl
      rw [setHeadNaN_getD _ _ _ htr, if_pos ht]
      obtain ⟨u, hu, hroll⟩ := nproll_getD_of_lt s L t htl
      rw [hroll, List.map_const']
      rw [hwf _ (getD_row_mem s u hu)]
    · intro t hLe ht
      have htr : t < (nproll s L).length := by rw [nproll_length]; exact ht
      rw [setHeadNaN_getD _ _ _ htr, if_neg (by omega)]
      exact nproll_getD_of_le s L t hLe ht
  · intro hge g hmemg
    obtain ⟨-, hlt, -⟩ := (mem_createLagFeatures s lags L g).mp hmemg
    omega

theorem lag_features_shift_witness :
    ∃ g, (1, g) ∈ createLagFeatures [[fin 1], [fin 2], [fin 3]] [1, 4] ∧
      g.length = ([[fin 1], [fin 2], [fin 3]] : ArrV).length ∧
      (∀ t, t < ([[fin 1], [fin 2], [fin 3]] : ArrV).length →
        (g.getD t []).length = ncols [[fin 1], [fin 2], [fin 3]]) ∧
      (∀ t, t < 1 → g.getD t [] = List.replicate (ncols [[fin 1], [fin 2], [fin 3]]) FVal.nan) ∧
      (∀ t, 1 ≤ t → t < ([[fin 1], [fin 2], [fin 3]] : ArrV).length →
        g.getD t [] = ([[fin 1], [fin 2], [fin 3]] : ArrV).getD (t - 1) []) :=
  (lag_features_shift [[fin 1], [fin 2], [fin 3]] [1, 4] 1
    (by decide) (by decide) (by decide)).1 (by decide)

/-! ## Spatial cross-validation (`modules/modeling/spatial_cv.py`) -/

/-- `np.where(mask)[0]` for a 1-D boolean mask: the indices, in increasing
order, at which the mask holds. -/
def npWhere (mask : List Bool) : List ℕ :=
  (List.range mask.length).filter (fun j => mask.getD j false)

/-- `SpatialCV.split(X, coordinates)`.  `kmeansFitPredict` abstracts
`KMeans(n_clusters=n_splits, random_state=random_state, n_init=10)
.fit_predict(coordinates)`: with a fixed integer `random_state`,
scikit-learn KMeans is a deterministic function of the coordinate array,
the cluster count and the seed, returning one label per sample.  The
feature matrix `X` is accepted for scikit-learn interface compatibility
and never used, exactly as in the source.  Fold `i` is
`(train_indices, test_indices)` where `test_indices` collects samples
whose label equals `i` and `train_indices` the rest. -/
def spatialCVSplit (kmeansFitPredict : List (ℚ × ℚ) → ℕ → ℕ → List ℕ)
    (nSplits randomState : ℕ) (X : List (List ℚ)) (coords : List (ℚ × ℚ)) :
    List (List ℕ × List ℕ) :=
  let labels := kmeansFitPredict coords nSplits randomState
  (List.range nSplits).map fun i =>
    (npWhere (labels.map (fun l => decide (l ≠ i))),
     npWhere (labels.map (fun l => decide (l = i))))

lemma mem_npWhere (mask : List Bool) (j : ℕ) :
    j ∈ npWhere mask ↔ j < mask.length ∧ mask.getD j false = true := by
  unfold npWhere
  simp [List.mem_filter, List.mem_range]

lemma getD_map_bool (f : ℕ → Bool) (l : List ℕ) (j : ℕ) (hj : j < l.length) :
    (l.map f).getD j false = f l[j] := by
  rw [List.getD_eq_getElem _ _ (by simpa using hj), List.getElem_map]

lemma length_filter_map_eq_countP {α : Type} (F : ℕ → α) (p : α → Bool) (l : List ℕ) :
    ((l.map F).filter p).length = l.countP (fun i => p (F i)) := by
  induction l with
  | nil => rfl
  | cons a l ih =>
    rw [List.map_cons, List.filter_cons, List.countP_cons]
    cases h : p (F a) <;> simp [h, ih]

lemma countP_range_unique (k a : ℕ) (ha : a < k) (p : ℕ → Bool)
    (hp : ∀ i, p i = true ↔ i = a) :
    List.countP p (List.range k) = 1 := by
  induction k with
  | zero => omega
  | succ k ih =>
    rw [List.range_succ, List.countP_append]
    by_cases hak : a = k
    · subst hak
      have h1 : List.countP p (List.range a) = 0 := by
        rw [List.countP_eq_zero]
        intro i hi
        rw [List.mem_range] at hi
        simp only [hp]
        omega
      have h2 : List.countP p [a] = 1 := by
        have : p a = true := (hp a).mpr rfl
        simp [List.countP_cons, this]
      omega
    · have h2 : List.countP p [k] = 0 := by
        have : p k = false := by
          rcases h : p k with - | -
          · rfl
          · exact absurd ((hp k).mp h).symm hak
        simp [List.countP_cons, this]
      rw [ih (by omega)]
      omega

/-- C3: for `n` coordinates and `1 ≤ k ≤ n` folds, `SpatialCV.split`
yields exactly `k` folds; within every fold train and test indices are
disjoint, cover `{0, …, n-1}`, and contain nothing else; and every index
lies in the test set of exactly one fold.  `hlab` is scikit-learn's
contract that `fit_predict` returns one cluster label in `[0, k)` per
sample. -/
theorem spatial_cv_split_partition
    (kf : List (ℚ × ℚ) → ℕ → ℕ → List ℕ) (k seed : ℕ)
    (X : List (List ℚ)) (coords : List (ℚ × ℚ)) (n : ℕ)
    (hn : (kf coords k seed).length = n)
    (hlab : ∀ l ∈ kf coords k seed, l < k)
    (hk1 : 1 ≤ k) (hkn : k ≤ n) :
    (spatialCVSplit kf k seed X coords).length = k ∧
    (∀ f ∈ spatialCVSplit kf k seed X coords,
      (∀ j, ¬(j ∈ f.1 ∧ j ∈ f.2)) ∧
      (∀ j, j < n → (j ∈ f.1 ∨ j ∈ f.2)) ∧
      (∀ j, (j ∈ f.1 ∨ j ∈ f.2) → j < n)) ∧
    (∀ j, j < n →
      ((spatialCVSplit kf k seed X coords).filter (fun f => decide (j ∈ f.2))).length = 1) := by
  set labels := kf coords k seed with hlabels
  have hmem2 : ∀ i j, j ∈ npWhere (labels.map (fun l => decide (l = i))) ↔
      (j < n ∧ labels.getD j 0 = i) := by
    intro i j
    rw [mem_npWhere, List.length_map, hn]
    constructor
    · rintro ⟨hj, hd⟩
      rw [getD_map_bool _ _ _ (by omega : j < labels.length)] at hd
      refine ⟨hj, ?_⟩
      rw [List.getD_eq_getElem _ _ (by omega : j < labels.length)]
      simpa using hd
    · rintro ⟨hj, hd⟩
      refine ⟨hj, ?_⟩
      rw [getD_map_bool _ _ _ (by omega : j < labels.length)]
      rw [List.getD_eq_getElem _ _ (by omega : j < labels.length)] at hd
      simpa using hd
  have hmem1 : ∀ i j, j ∈ npWhere (labels.map (fun l => decide (l ≠ i))) ↔
      (j < n ∧ labels.getD j 0 ≠ i) := by
    intro i j
    rw [mem_npWhere, List.length_map, hn]
    constructor
    · rintro ⟨hj, hd⟩
      rw [getD_map_bool _ _ _ (by omega : j < labels.length)] at hd
      refine ⟨hj, ?_⟩
      rw [List.getD_eq_getElem _ _ (by omega : j < labels.length)]
      simpa using hd
    · rintro ⟨hj, hd⟩
      refine ⟨hj, ?_⟩
      rw [getD_map_bool _ _ _ (by omega : j < labels.length)]
      rw [List.getD_eq_getElem _ _ (by omega : j < labels.length)] at hd
      simpa using hd
  refine ⟨by simp [spatialCVSplit], ?_, ?_⟩
  · intro f hf
    unfold spatialCVSplit at hf
    simp only [List.mem_map, List.mem_range] at hf
    obtain ⟨i, hik, rfl⟩ := hf
    refine ⟨?_, ?_, ?_⟩
    · rintro j ⟨h1, h2⟩
      rw [hmem1] at h1
      rw [hmem2] at h2
      exact h1.2 h2.2
    · intro j hj
      by_cases hd : labels.getD j 0 = i
      · exact Or.inr ((hmem2 i j).mpr ⟨hj, hd⟩)
      · exact Or.inl ((hmem1 i j).mpr ⟨hj, hd⟩)
    · rintro j (h | h)
      · exact ((hmem1 i j).mp h).1
      · exact ((hmem2 i j).mp h).1
  · intro j hj
    unfold spatialCVSplit
    rw [length_filter_map_eq_countP]
    apply countP_range_unique k (labels.getD j 0)
    · apply hlab
      rw [List.getD_eq_getElem _ _ (by omega : j < labels.length)]
      exact List.getElem_mem _
    · intro i
      simp only [decide_eq_true_eq]
      rw [hmem2]
      constructor
      · rintro ⟨-, h⟩; exact h.symm
      · rintro rfl; exact ⟨hj, rfl⟩

theorem spatial_cv_split_partition_witness :
    (spatialCVSplit (fun _ _ _ => [0, 1, 0]) 2 42 [] [(0, 0), (5, 5), (1, 1)]).length = 2 ∧
    (∀ f ∈ spatialCVSplit (fun _ _ _ => [0, 1, 0]) 2 42 [] [(0, 0), (5, 5), (1, 1)],
      (∀ j, ¬(j ∈ f.1 ∧ j ∈ f.2)) ∧
      (∀ j, j < 3 → (j ∈ f.1 ∨ j ∈ f.2)) ∧
      (∀ j, (j ∈ f.1 ∨ j ∈ f.2) → j < 3)) ∧
    (∀ j, j < 3 →
      ((spatialCVSplit (fun _ _ _ => [0, 1, 0]) 2 42 [] [(0, 0), (5, 5), (1, 1)]).filter
        (fun f => decide (j ∈ f.2))).length = 1) :=
  spatial_cv_split_partition (fun _ _ _ => [0, 1, 0]) 2 42 [] [(0, 0), (5, 5), (1, 1)] 3
    rfl (by decide) (by decide) (by decide)

/-- C9: `SpatialCV.split` is a deterministic function of the coordinates,
`n_splits` and `random_state` alone: two calls with the same clustering
function, coordinates and configuration but different feature matrices
yield identical fold sequences, because the feature matrix argument is
never consulted. -/
theorem spatial_cv_split_ignores_features
    (kf : List (ℚ × ℚ) → ℕ → ℕ → List ℕ) (k seed : ℕ)
    (X1 X2 : List (List ℚ)) (coords : List (ℚ × ℚ)) :
    spatialCVSplit kf k seed X1 coords = spatialCVSplit kf k seed X2 coords := rfl

/-! ## PET (`FeatureEngineer.compute_pet_hargreaves`) -/

/-- Elementwise combination of three equal-length grids (numpy
broadcasting of `0.0023 * (t_mean + 17.8) * np.sqrt(t_max - t_min) * ra`). -/
def map3 {α : Type} (f : α → α → α → α) : List α → List α → List α → List α
  | a :: as, b :: bs, c :: cs => f a b c :: map3 f as bs cs
  | _, _, _ => []

/-- The `temperature` argument of `compute_pet_hargreaves`: either a dict
with keys `mean`, `max`, `min`, or a single mean-temperature array. -/
inductive TempInput where
  | dict (tmean tmax tmin : List FVal)
  | single (t : List FVal)

/-- One cell of the Hargreaves formula with `Ra = 15.0`:
`0.0023 * (t_mean + 17.8) * np.sqrt(t_max - t_min) * 15.0`. -/
def petCell (R : RealOps) (a b c : FVal) : FVal :=
  fmul (fmul (fmul (FVal.fin (23 / 10000)) (fadd a (FVal.fin (89 / 5))))
    (fsqrt R.sqrt (fsub b c))) (FVal.fin 15)

/-- `FeatureEngineer.compute_pet_hargreaves(temperature)`: for dict input
uses the supplied mean/max/min; for a single array approximates
`t_max/t_min` as `t ± 5`; then applies the Hargreaves formula cellwise and
finally `np.maximum(pet, 0)`.  The diurnal range `t_max - t_min` is fed to
`np.sqrt` without clamping. -/
def computePetHargreaves (R : RealOps) (temperature : TempInput) : List FVal :=
  let tm := match temperature with
    | .dict a _ _ => a
    | .single t => t
  let tmax := match temperature with
    | .dict _ b _ => b
    | .single t => t.map (fun x => fadd x (FVal.fin 5))
  let tmin := match temperature with
    | .dict _ _ c => c
    | .single t => t.map (fun x => fsub x (FVal.fin 5))
  let pet := map3 (petCell R) tm tmax tmin
  pet.map (fun x => fmax x (FVal.fin 0))

/-- C1 (counterexample): with finite dict input `t_mean = 20`,
`t_max = 10 < t_min = 20`, `compute_pet_hargreaves` returns NaN (a missing
value), not a non-negative number: the diurnal range is not clamped before
the square root, and `np.maximum(NaN, 0) = NaN`. -/
theorem pet_hargreaves_negative_range_gives_nan :
    computePetHargreaves ratOps
      (TempInput.dict [FVal.fin 20] [FVal.fin 10] [FVal.fin 20]) = [FVal.nan] ∧
    FVal.nan.isNan = true := by
  constructor
  · show List.map _ (map3 _ _ _ _) = _
    norm_num [map3, petCell, fadd, fsub, fneg, fmul, fmax, fsqrt]
  · rfl

lemma petCell_fin_nonneg (R : RealOps) (a b c : ℚ) (h : c ≤ b) :
    ∃ q : ℚ, fmax (petCell R (FVal.fin a) (FVal.fin b) (FVal.fin c)) (FVal.fin 0)
      = FVal.fin q ∧ 0 ≤ q := by
  unfold petCell
  simp only [fadd, fsub, fneg, fmul, fsqrt]
  rw [if_neg (by linarith : ¬(b + -c < 0))]
  exact ⟨_, rfl, le_max_right _ 0⟩

lemma map3_length {α : Type} (f : α → α → α → α) (as bs cs : List α) :
    (map3 f as bs cs).length = min as.length (min bs.length cs.length) := by
  induction as generalizing bs cs with
  | nil => cases bs <;> cases cs <;> simp [map3]
  | cons a as ih =>
    cases bs with
    | nil => simp [map3]
    | cons b bs =>
      cases cs with
      | nil => simp [map3]
      | cons c cs => simp [map3, ih]; omega

lemma map3_getElem {α : Type} (f : α → α → α → α) (as bs cs : List α) (i : ℕ)
    (h : i < (map3 f as bs cs).length) (ha : i < as.length) (hb : i < bs.length)
    (hc : i < cs.length) :
    (map3 f as bs cs)[i] = f as[i] bs[i] cs[i] := by
  induction as generalizing bs cs i with
  | nil => simp at ha
  | cons a as ih =>
    cases bs with
    | nil => simp at hb
    | cons b bs =>
      cases cs with
      | nil => simp at hc
      | cons c cs =>
        cases i with
        | zero => rfl
        | succ i =>
          have hm : map3 f (a :: as) (b :: bs) (c :: cs) = f a b c :: map3 f as bs cs := rfl
          have h2 : i < (map3 f as bs cs).length := by
            rw [hm] at h
            simpa using h
          simp only [hm, List.getElem_cons_succ]
          exact ih bs cs i h2 (by simpa using ha) (by simpa using hb) (by simpa using hc)

/-- C1 (amended): `compute_pet_hargreaves` returns a non-negative finite
value at every cell for finite inputs whose diurnal range is non-negative:
for dict input this needs `t_min ≤ t_max` cellwise (the range is NOT
clamped before the square root — a cell with `t_max < t_min` is missing,
see the counterexample); for single-array input the approximated range is
the constant 10, so the output is always non-negative and never missing.
The clamp `np.maximum(pet, 0)` acts after the product. -/
theorem pet_hargreaves_nonneg (R : RealOps) (tm tmax tmin t : List ℚ)
    (hlen1 : tmax.length = tm.length) (hlen2 : tmin.length = tm.length)
    (hge : ∀ i, i < tm.length → tmin.getD i 0 ≤ tmax.getD i 0) :
    (∀ x ∈ computePetHargreaves R
        (TempInput.dict (tm.map FVal.fin) (tmax.map FVal.fin) (tmin.map FVal.fin)),
      ∃ q : ℚ, x = FVal.fin q ∧ 0 ≤ q) ∧
    (∀ x ∈ computePetHargreaves R (TempInput.single (t.map FVal.fin)),
      ∃ q : ℚ, x = FVal.fin q ∧ 0 ≤ q) := by
  constructor
  · intro x hx
    unfold computePetHargreaves at hx
    simp only [List.mem_map] at hx
    obtain ⟨y, hy, rfl⟩ := hx
    rw [List.mem_iff_getElem] at hy
    obtain ⟨i, hi, rfl⟩ := hy
    have hil : i < tm.length := by
      rw [map3_length] at hi
      simp only [List.length_map] at hi
      omega
    rw [map3_getElem _ _ _ _ i hi (by simpa using hil) (by simp; omega) (by simp; omega)]
    rw [List.getElem_map, List.getElem_map, List.getElem_map]
    have hge2 : tmin[i] ≤ tmax[i] := by
      have := hge i hil
      rwa [List.getD_eq_getElem _ _ (by omega), List.getD_eq_getElem _ _ (by omega)] at this
    exact petCell_fin_nonneg R tm[i] tmax[i] tmin[i] hge2
  · intro x hx
    unfold computePetHargreaves at hx
    simp only [List.mem_map] at hx
    obtain ⟨y, hy, rfl⟩ := hx
    rw [List.mem_iff_getElem] at hy
    obtain ⟨i, hi, rfl⟩ := hy
    have hil : i < t.length := by
      rw [map3_length] at hi
      simp only [List.length_map] at hi
      omega
    rw [map3_getElem _ _ _ _ i hi (by simpa using hil) (by simp; omega) (by simp; omega)]
    simp only [List.getElem_map]
    have e1 : fadd (FVal.fin t[i]) (FVal.fin 5) = FVal.fin (t[i] + 5) := rfl
    have e2 : fsub (FVal.fin t[i]) (FVal.fin 5) = FVal.fin (t[i] - 5) := by
      simp [fsub, fneg, fadd, sub_eq_add_neg]
    rw [e1, e2]
    exact petCell_fin_nonneg R t[i] (t[i] + 5) (t[i] - 5) (by linarith)

theorem pet_hargreaves_nonneg_witness :
    (∀ x ∈ computePetHargreaves ratOps
        (TempInput.dict ([20].map FVal.fin) ([30].map FVal.fin) ([10].map FVal.fin)),
      ∃ q : ℚ, x = FVal.fin q ∧ 0 ≤ q) ∧
    (∀ x ∈ computePetHargreaves ratOps (TempInput.single ([0].map FVal.fin)),
      ∃ q : ℚ, x = FVal.fin q ∧ 0 ≤ q) :=
  pet_hargreaves_nonneg ratOps [20] [30] [10] [0] rfl rfl
    (by
      intro i hi
      have : i = 0 := by simpa using hi
      subst this
      norm_num [List.getD])

/-! ## Temporal statistics (`FeatureEngineer.compute_temporal_statistics`) -/

/-- `np.mean` over one pixel's time slice: sum divided by count with NaN
propagation (numpy's plain `mean`, not `nanmean`); the empty slice gives
`0/0 = NaN`. -/
def npMeanL (l : List FVal) : FVal :=
  fdiv (l.foldr fadd (FVal.fin 0)) (FVal.fin l.length)

/-- `np.std` (population): `sqrt(mean((x - mean)^2))`, NaN-propagating. -/
def npStdL (R : RealOps) (l : List FVal) : FVal :=
  fsqrt R.sqrt (npMeanL (l.map (fun x => fmul (fsub x (npMeanL l)) (fsub x (npMeanL l)))))

/-- `np.min` over one pixel's time slice (NaN-propagating `amin`; numpy
raises on an empty slice, modelled as NaN — no claim uses it). -/
def npMinL (l : List FVal) : FVal :=
  match l with
  | [] => FVal.nan
  | x :: xs => xs.foldl fmin x

/-- `np.max` over one pixel's time slice (NaN-propagating `amax`). -/
def npMaxL (l : List FVal) : FVal :=
  match l with
  | [] => FVal.nan
  | x :: xs => xs.foldl fmax x

/-- The valid (non-NaN) samples of a pixel column paired with their time
indices: the source's `time_index[valid_mask]` / `data_2d[valid_mask, i]`. -/
def validPairs (col : List FVal) : List (ℕ × FVal) :=
  ((List.range col.length).zip col).filter (fun a => !a.2.isNan)

/-- The slope returned by `np.polyfit(t, x, 1)` on the valid samples:
the ordinary-least-squares slope
`(n·Σtx − Σt·Σx) / (n·Σt² − (Σt)²)` over the valid pairs. -/
def olsSlope (ps : List (ℕ × FVal)) : FVal :=
  let n : ℚ := ps.length
  let st : ℚ := (ps.map (fun a => (a.1 : ℚ))).sum
  let stt : ℚ := (ps.map (fun a => ((a.1 : ℚ)) * ((a.1 : ℚ)))).sum
  let sx := (ps.map (fun a => a.2)).foldr fadd (FVal.fin 0)
  let stx := (ps.map (fun a => fmul (FVal.fin ((a.1 : ℚ))) a.2)).foldr fadd (FVal.fin 0)
  fdiv (fsub (fmul (FVal.fin n) stx) (fmul (FVal.fin st) sx))
    (FVal.fin (n * stt - st * st))

/-- Per-pixel trend of `compute_temporal_statistics`: the OLS slope when a
pixel has more than 2 valid time points, else NaN. -/
def trendSlope (col : List FVal) : FVal :=
  if 2 < (validPairs col).length then olsSlope (validPairs col) else FVal.nan

/-- The five outputs of `compute_temporal_statistics`, each a flattened
per-pixel grid. -/
structure TemporalStats where
  mean : List FVal
  std : List FVal
  min : List FVal
  max : List FVal
  trend : List FVal

/-- `FeatureEngineer.compute_temporal_statistics(data)`: per-pixel
`np.mean/np.std/np.min/np.max` over the time axis (axis 0) and the
per-pixel OLS trend over the valid samples. -/
def computeTemporalStatistics (R : RealOps) (data : ArrV) : TemporalStats where
  mean := (List.range (ncols data)).map (fun p => npMeanL (column p data))
  std := (List.range (ncols data)).map (fun p => npStdL R (column p data))
  min := (List.range (ncols data)).map (fun p => npMinL (column p data))
  max := (List.range (ncols data)).map (fun p => npMaxL (column p data))
  trend := (List.range (ncols data)).map (fun p => trendSlope (column p data))

/-- Modelled from the spec claim, for comparison: the mean over only the
non-missing time samples of a pixel (`np.nanmean` behaviour). -/
def specNanMean (col : List FVal) : FVal :=
  npMeanL (col.filter (fun x => !x.isNan))

/-- C5 (counterexample): on the series `[1, NaN, 3]` at a single pixel,
`compute_temporal_statistics` returns mean = NaN (numpy's plain `np.mean`
propagates the missing sample), whereas the mean over only the non-missing
samples is 2.  Missing values are propagated into mean/std/min/max, not
ignored. -/
theorem temporal_statistics_nan_counterexample :
    (computeTemporalStatistics ratOps [[fin 1], [nan], [fin 3]]).mean = [FVal.nan] ∧
    (computeTemporalStatistics ratOps [[fin 1], [nan], [fin 3]]).min = [FVal.nan] ∧
    specNanMean (column 0 [[fin 1], [nan], [fin 3]]) = FVal.fin 2 ∧
    FVal.nan ≠ FVal.fin 2 := by
  refine ⟨?_, ?_, ?_, by simp⟩
  · norm_num [computeTemporalStatistics, npMeanL, column, ncols, fadd, fdiv, List.range_succ]
  · norm_num [computeTemporalStatistics, npMinL, column, ncols, fmin, List.range_succ]
  · norm_num [specNanMean, npMeanL, column, FVal.isNan, fadd, fdiv]

lemma fadd_nan_right (x : FVal) : fadd x FVal.nan = FVal.nan := by cases x <;> rfl

lemma foldr_fadd_of_nan_mem (l : List FVal) (h : FVal.nan ∈ l) :
    l.foldr fadd (FVal.fin 0) = FVal.nan := by
  induction l with
  | nil => simp at h
  | cons x xs ih =>
    rcases List.mem_cons.mp h with hx | hx
    · rw [List.foldr_cons, ← hx]
      cases List.foldr fadd (FVal.fin 0) xs <;> rfl
    · rw [List.foldr_cons, ih hx, fadd_nan_right]

lemma npMeanL_of_nan_mem (l : List FVal) (h : FVal.nan ∈ l) : npMeanL l = FVal.nan := by
  unfold npMeanL
  rw [foldr_fadd_of_nan_mem l h]
  rfl

lemma fsub_nan_right (x : FVal) : fsub x FVal.nan = FVal.nan := by
  cases x <;> rfl

lemma fmul_nan_left (y : FVal) : fmul FVal.nan y = FVal.nan := by cases y <;> rfl

lemma npStdL_of_nan_mem (R : RealOps) (l : List FVal) (h : FVal.nan ∈ l) :
    npStdL R l = FVal.nan := by
  unfold npStdL
  have hm : FVal.nan ∈ l.map (fun x => fmul (fsub x (npMeanL l)) (fsub x (npMeanL l))) := by
    rw [List.mem_map]
    refine ⟨FVal.nan, h, ?_⟩
    rw [npMeanL_of_nan_mem l h]
    rfl
  rw [npMeanL_of_nan_mem _ hm]
  rfl

lemma foldl_nan_propagate (f : FVal → FVal → FVal)
    (h1 : ∀ y, f FVal.nan y = FVal.nan) (h2 : ∀ x, f x FVal.nan = FVal.nan) :
    ∀ (l : List FVal) (a : FVal), (a = FVal.nan ∨ FVal.nan ∈ l) →
      l.foldl f a = FVal.nan := by
  intro l
  induction l with
  | nil =>
    rintro a (rfl | h)
    · rfl
    · simp at h
  | cons x xs ih =>
    rintro a (rfl | h)
    · exact ih (f FVal.nan x) (Or.inl (h1 x))
    · rcases List.mem_cons.mp h with hx | hx
      · subst hx
        exact ih (f a FVal.nan) (Or.inl (h2 a))
      · exact ih (f a x) (Or.inr hx)

lemma npMinL_of_nan_mem (l : List FVal) (h : FVal.nan ∈ l) : npMinL l = FVal.nan := by
  cases l with
  | nil => simp at h
  | cons x xs =>
    show xs.foldl fmin x = FVal.nan
    apply foldl_nan_propagate fmin (fun y => by cases y <;> rfl) (fun x => by cases x <;> rfl)
    rcases List.mem_cons.mp h with hx | hx
    · exact Or.inl hx.symm
    · exact Or.inr hx

lemma npMaxL_of_nan_mem (l : List FVal) (h : FVal.nan ∈ l) : npMaxL l = FVal.nan := by
  cases l with
  | nil => simp at h
  | cons x xs =>
    show xs.foldl fmax x = FVal.nan
    apply foldl_nan_propagate fmax (fun y => by cases y <;> rfl) (fun x => by cases x <;> rfl)
    rcases List.mem_cons.mp h with hx | hx
    · exact Or.inl hx.symm
    · exact Or.inr hx

lemma getD_map_range {α : Type} (F : ℕ → α) (n p : ℕ) (d : α) (hp : p < n) :
    ((List.range n).map F).getD p d = F p := by
  rw [List.getD_eq_getElem _ _ (by simpa using hp), List.getElem_map, List.getElem_range]

/-- C5 (amended): at every pixel, `compute_temporal_statistics` returns
the plain `np.mean`/`np.std`/`np.min`/`np.max` over ALL of that pixel's
time samples — missing values are propagated, not ignored: a pixel with
any missing time step gets missing mean, std, min and max (only the trend
restricts itself to valid samples).  On a pixel with no missing samples
the result coincides with the statistics over the non-missing samples. -/
theorem temporal_statistics_propagate_nan (R : RealOps) (data : ArrV) (p : ℕ)
    (hp : p < ncols data) :
    ((computeTemporalStatistics R data).mean.getD p FVal.nan = npMeanL (column p data) ∧
     (computeTemporalStatistics R data).std.getD p FVal.nan = npStdL R (column p data) ∧
     (computeTemporalStatistics R data).min.getD p FVal.nan = npMinL (column p data) ∧
     (computeTemporalStatistics R data).max.getD p FVal.nan = npMaxL (column p data)) ∧
    (FVal.nan ∈ column p data →
      (computeTemporalStatistics R data).mean.getD p FVal.nan = FVal.nan ∧
      (computeTemporalStatistics R data).std.getD p FVal.nan = FVal.nan ∧
      (computeTemporalStatistics R data).min.getD p FVal.nan = FVal.nan ∧
      (computeTemporalStatistics R data).max.getD p FVal.nan = FVal.nan) := by
  have h1 : (computeTemporalStatistics R data).mean.getD p FVal.nan
      = npMeanL (column p data) := getD_map_range _ _ _ _ hp
  have h2 : (computeTemporalStatistics R data).std.getD p FVal.nan
      = npStdL R (column p data) := getD_map_range _ _ _ _ hp
  have h3 : (computeTemporalStatistics R data).min.getD p FVal.nan
      = npMinL (column p data) := getD_map_range _ _ _ _ hp
  have h4 : (computeTemporalStatistics R data).max.getD p FVal.nan
      = npMaxL (column p data) := getD_map_range _ _ _ _ hp
  refine ⟨⟨h1, h2, h3, h4⟩, fun hnan => ⟨?_, ?_, ?_, ?_⟩⟩
  · rw [h1]; exact npMeanL_of_nan_mem _ hnan
  · rw [h2]; exact npStdL_of_nan_mem R _ hnan
  · rw [h3]; exact npMinL_of_nan_mem _ hnan
  · rw [h4]; exact npMaxL_of_nan_mem _ hnan

theorem temporal_statistics_propagate_nan_witness :
    ((computeTemporalStatistics ratOps [[fin 1], [nan], [fin 3]]).mean.getD 0 FVal.nan
        = npMeanL (column 0 [[fin 1], [nan], [fin 3]]) ∧
     (computeTemporalStatistics ratOps [[fin 1], [nan], [fin 3]]).std.getD 0 FVal.nan
        = npStdL ratOps (column 0 [[fin 1], [nan], [fin 3]]) ∧
     (computeTemporalStatistics ratOps [[fin 1], [nan], [fin 3]]).min.getD 0 FVal.nan
        = npMinL (column 0 [[fin 1], [nan], [fin 3]]) ∧
     (computeTemporalStatistics ratOps [[fin 1], [nan], [fin 3]]).max.getD 0 FVal.nan
        = npMaxL (column 0 [[fin 1], [nan], [fin 3]])) ∧
    (FVal.nan ∈ column 0 [[fin 1], [nan], [fin 3]] →
      (computeTemporalStatistics ratOps [[fin 1], [nan], [fin 3]]).mean.getD 0 FVal.nan
        = FVal.nan ∧
      (computeTemporalStatistics ratOps [[fin 1], [nan], [fin 3]]).std.getD 0 FVal.nan
        = FVal.nan ∧
      (computeTemporalStatistics ratOps [[fin 1], [nan], [fin 3]]).min.getD 0 FVal.nan
        = FVal.nan ∧
      (computeTemporalStatistics ratOps [[fin 1], [nan], [fin 3]]).max.getD 0 FVal.nan
        = FVal.nan) :=
  temporal_statistics_propagate_nan ratOps [[fin 1], [nan], [fin 3]] 0 (by norm_num [ncols])

/-! ## SPI (`FeatureEngineer.compute_spi`) -/

/-- Gamma parameters `(shape, loc, scale)` from `scipy.stats.gamma.fit`. -/
abbrev GammaParams : Type := ℚ × ℚ × ℚ

/-- The scipy distribution routines, abstracted: `gammaFit` returns `none`
when the fit raises (non-convergence and similar, caught by the source's
`except Exception`); the cdf/ppf maps are total cell functions (scipy
returns NaN or ±∞ on out-of-domain input rather than raising). -/
structure SpiOps where
  gammaFit : List FVal → Option GammaParams
  gammaCdf : GammaParams → FVal → FVal
  normCdf : FVal → FVal → FVal → FVal
  normPpf : FVal → FVal

/-- The final `np.where(np.isinf(spi), np.nan, spi)`. -/
def clearInf : FVal → FVal
  | FVal.inf _ => FVal.nan
  | x => x

/-- The per-pixel body of `compute_spi`'s double loop: the column written
into `spi[:, i, j]`.  All-NaN pixels, pixels with fewer than 10 valid
samples, and pixels whose fit raises get an all-NaN column; the gamma fit
is restricted to the strictly positive valid samples; otherwise (any
distribution name other than `gamma`) a normal distribution with the
sample mean/std is used. -/
def spiColumn (R : RealOps) (O : SpiOps) (dist : String) (pixelData : List FVal) :
    List FVal :=
  if pixelData.all (fun x => x.isNan) then pixelData.map (fun _ => FVal.nan)
  else if (pixelData.filter (fun x => !x.isNan)).length < 10 then
    pixelData.map (fun _ => FVal.nan)
  else if dist = "gamma" then
    match O.gammaFit ((pixelData.filter (fun x => !x.isNan)).filter FVal.fgt0) with
    | none => pixelData.map (fun _ => FVal.nan)
    | some ps => pixelData.map (fun x => O.normPpf (O.gammaCdf ps x))
  else
    pixelData.map (fun x => O.normPpf
      (O.normCdf (npMeanL (pixelData.filter (fun x => !x.isNan)))
        (npStdL R (pixelData.filter (fun x => !x.isNan))) x))

/-- The source's `precip_sum`: the trailing rolling sum when
`timescale > 1`, else the input itself. -/
def spiInput (s : ArrV) (timescale : ℕ) : ArrV :=
  if 1 < timescale then rollingSum s timescale else s

/-- `FeatureEngineer.compute_spi(precipitation, timescale, distribution)`:
rolling sum, per-pixel fit and probit transform, then
`np.where(np.isinf(spi), np.nan, spi)`. -/
def computeSpi (R : RealOps) (O : SpiOps) (dist : String) (timescale : ℕ)
    (precipitation : ArrV) : ArrV :=
  let precipSum := spiInput precipitation timescale
  (List.range precipitation.length).map fun t =>
    (List.range (ncols precipitation)).map fun p =>
      clearInf ((spiColumn R O dist (column p precipSum)).getD t FVal.nan)

lemma column_length (p : ℕ) (s : ArrV) : (column p s).length = s.length := by
  simp [column]

lemma rollingSum_length (s : ArrV) (w : ℕ) : (rollingSum s w).length = s.length := by
  simp [rollingSum]

lemma spiInput_length (s : ArrV) (ts : ℕ) : (spiInput s ts).length = s.length := by
  unfold spiInput
  split
  · exact rollingSum_length s ts
  · rfl

lemma getD_map_const_nan (l : List FVal) (t : ℕ) :
    (l.map (fun _ => FVal.nan)).getD t FVal.nan = FVal.nan := by
  rw [List.getD_eq_getElem?_getD, List.getElem?_map]
  cases l[t]? <;> rfl

lemma ncols_rollingSum (s : ArrV) (w : ℕ) (h : 0 < s.length) :
    ncols (rollingSum s w) = ncols s := by
  obtain ⟨n, hn⟩ : ∃ n, s.length = n + 1 := ⟨s.length - 1, by omega⟩
  unfold ncols rollingSum
  rw [hn, List.range_succ_eq_map, List.map_cons]
  simp [ncols, List.headD_eq_head?]

lemma column_spiInput (s : ArrV) (ts p : ℕ) (hp : p < ncols s) :
    column p (spiInput s ts)
      = if 1 < ts then rollingSumCol (column p s) ts else column p s := by
  unfold spiInput
  split
  · unfold column rollingSum
    apply List.ext_getElem
    · simp [rollingSumCol]
    · intro t h1 h2
      simp only [List.getElem_map, List.getElem_range]
      have ht : t < s.length := by simpa using h1
      rw [List.getD_eq_getElem _ _ (by simpa using hp), List.getElem_map, List.getElem_range]
      rw [List.getD_eq_getElem _ _ (by simp [rollingSumCol, column]; exact ht)]
      rfl
  · rfl

lemma spiColumn_length (R : RealOps) (O : SpiOps) (dist : String) (col : List FVal) :
    (spiColumn R O dist col).length = col.length := by
  unfold spiColumn
  split
  · simp
  · split
    · simp
    · split
      · cases O.gammaFit ((col.filter (fun x => !x.isNan)).filter FVal.fgt0) <;> simp
      · simp

lemma computeSpi_entry (R : RealOps) (O : SpiOps) (dist : String) (ts : ℕ) (s : ArrV)
    (t p : ℕ) (ht : t < s.length) (hp : p < ncols s) :
    ((computeSpi R O dist ts s).getD t []).getD p FVal.nan
      = clearInf ((spiColumn R O dist (column p (spiInput s ts))).getD t FVal.nan) := by
  unfold computeSpi
  rw [getD_map_range _ _ _ _ ht, getD_map_range _ _ _ _ hp]

/-- C2: per-pixel failure containment in `compute_spi`.  First part: if
the gamma fit raises at a pixel (modelled by `gammaFit = none` on that
pixel's positive valid samples), that pixel's output column is missing at
every time step — as it also is for all-NaN pixels and pixels with fewer
than 10 valid samples.  Second part: the output at a pixel depends only on
that pixel's input column — two inputs of equal shape that agree on pixel
`p`'s column produce identical output at pixel `p`, so a failing pixel
leaves every other pixel's output exactly as it would be without it.  The
embedding is a total function: no input aborts the grid. -/
theorem spi_per_pixel_containment (R : RealOps) (O : SpiOps) (dist : String)
    (ts : ℕ) (s s2 : ArrV) (p : ℕ) (hp : p < ncols s) :
    (dist = "gamma" →
      O.gammaFit (((column p (spiInput s ts)).filter (fun x => !x.isNan)).filter FVal.fgt0)
        = none →
      ∀ t, t < s.length →
        ((computeSpi R O dist ts s).getD t []).getD p FVal.nan = FVal.nan) ∧
    (s.length = s2.length → ncols s = ncols s2 → column p s = column p s2 →
      ∀ t, t < s.length →
        ((computeSpi R O dist ts s).getD t []).getD p FVal.nan
          = ((computeSpi R O dist ts s2).getD t []).getD p FVal.nan) := by
  constructor
  · intro hdist hfit t ht
    rw [computeSpi_entry R O dist ts s t p ht hp]
    unfold spiColumn
    split
    · rw [getD_map_const_nan]; rfl
    · split
      · rw [getD_map_const_nan]; rfl
      · subst hdist
        rw [hfit]
        simp [getD_map_const_nan, clearInf]
  · intro hlen hnc hcol t ht
    rw [computeSpi_entry R O dist ts s t p ht hp,
      computeSpi_entry R O dist ts s2 t p (by omega) (by omega)]
    have hc2 : column p (spiInput s ts) = column p (spiInput s2 ts) := by
      rw [column_spiInput s ts p hp, column_spiInput s2 ts p (by omega), hcol]
    rw [hc2]

def spiOpsFail : SpiOps where
  gammaFit := fun _ => none
  gammaCdf := fun _ _ => FVal.fin 0
  normCdf := fun _ _ _ => FVal.fin 0
  normPpf := fun x => x

def exSeries10 : ArrV :=
  [[fin 1], [fin 2], [fin 3], [fin 4], [fin 5], [fin 6], [fin 7], [fin 8], [fin 9], [fin 10]]

theorem spi_per_pixel_containment_witness :
    ("gamma" = "gamma" →
      spiOpsFail.gammaFit
        (((column 0 (spiInput exSeries10 1)).filter (fun x => !x.isNan)).filter FVal.fgt0)
        = none →
      ∀ t, t < exSeries10.length →
        ((computeSpi ratOps spiOpsFail "gamma" 1 exSeries10).getD t []).getD 0 FVal.nan
          = FVal.nan) ∧
    (exSeries10.length = exSeries10.length → ncols exSeries10 = ncols exSeries10 →
      column 0 exSeries10 = column 0 exSeries10 →
      ∀ t, t < exSeries10.length →
        ((computeSpi ratOps spiOpsFail "gamma" 1 exSeries10).getD t []).getD 0 FVal.nan
          = ((computeSpi ratOps spiOpsFail "gamma" 1 exSeries10).getD t []).getD 0 FVal.nan) :=
  spi_per_pixel_containment ratOps spiOpsFail "gamma" 1 exSeries10 exSeries10 0
    (by norm_num [ncols, exSeries10])

def spiOpsConst : SpiOps where
  gammaFit := fun _ => some (1, 0, 1)
  gammaCdf := fun _ _ => FVal.fin (1/2)
  normCdf := fun _ _ _ => FVal.fin (1/2)
  normPpf := fun _ => FVal.fin 0

/-- C6 (counterexample): `compute_spi` with the unsupported distribution
name `cauchy` raises nothing and silently computes the same result as with
`normal` — here a fully computed, non-missing grid — because the source's
`if distribution == 'gamma': ... else: ...` treats every non-gamma name as
normal. -/
theorem spi_unsupported_distribution_silently_computes :
    computeSpi ratOps spiOpsConst "cauchy" 1 exSeries10
      = computeSpi ratOps spiOpsConst "normal" 1 exSeries10 ∧
    computeSpi ratOps spiOpsConst "cauchy" 1 exSeries10
      = List.replicate 10 [FVal.fin 0] := by
  constructor
  · rfl
  · decide

/-- C6 (amended): `compute_spi` raises no error on an unsupported
distribution name: every distribution argument other than `"gamma"` is
silently treated as `"normal"`. -/
theorem spi_distribution_fallback (R : RealOps) (O : SpiOps) (ts : ℕ) (s : ArrV)
    (dist : String) (h : dist ≠ "gamma") :
    computeSpi R O dist ts s = computeSpi R O "normal" ts s := by
  have h2 : ("normal" : String) ≠ "gamma" := by decide
  unfold computeSpi spiColumn
  simp [eq_false h, eq_false h2]

theorem spi_distribution_fallback_witness :
    computeSpi ratOps spiOpsConst "cauchy" 1 [[fin 1], [fin 2]]
      = computeSpi ratOps spiOpsConst "normal" 1 [[fin 1], [fin 2]] :=
  spi_distribution_fallback ratOps spiOpsConst 1 [[fin 1], [fin 2]] "cauchy" (by decide)

/-! ## Terrain features (`compute_slope_aspect`, `compute_tpi`,
`compute_curvature`, `compute_twi`) -/

/-- Cell access `g[i][j]` (used only in bounds). -/
def gget (g : ArrV) (i j : ℕ) : FVal := (g.getD i []).getD j FVal.nan

/-- `np.gradient(g, h)` along axis 0 (rows): one-sided differences at the
first and last row, central differences `(f[i+1] - f[i-1]) / (2h)` in the
interior.  numpy requires at least 2 rows; the theorems assume that. -/
def gradAxis0 (g : ArrV) (h : ℚ) : ArrV :=
  (List.range g.length).map fun i => (List.range (ncols g)).map fun j =>
    if i = 0 then fdiv (fsub (gget g 1 j) (gget g 0 j)) (FVal.fin h)
    else if i = g.length - 1 then
      fdiv (fsub (gget g (g.length - 1) j) (gget g (g.length - 2) j)) (FVal.fin h)
    else fdiv (fsub (gget g (i + 1) j) (gget g (i - 1) j)) (FVal.fin (2 * h))

/-- `np.gradient(g, h)` along axis 1 (columns). -/
def gradAxis1 (g : ArrV) (h : ℚ) : ArrV :=
  (List.range g.length).map fun i => (List.range (ncols g)).map fun j =>
    if j = 0 then fdiv (fsub (gget g i 1) (gget g i 0)) (FVal.fin h)
    else if j = ncols g - 1 then
      fdiv (fsub (gget g i (ncols g - 1)) (gget g i (ncols g - 2))) (FVal.fin h)
    else fdiv (fsub (gget g i (j + 1)) (gget g i (j - 1))) (FVal.fin (2 * h))

/-- Elementwise combination of two equal-shape grids. -/
def zipGrid (f : FVal → FVal → FVal) (a b : ArrV) : ArrV :=
  List.zipWith (fun ra rb => List.zipWith f ra rb) a b

/-- Elementwise map over a grid. -/
def mapGrid (f : FVal → FVal) (a : ArrV) : ArrV := a.map (fun r => r.map f)

/-- `np.arctan` on cells: `atan(±∞) = ±π/2` (finite). -/
def fatan (R : RealOps) : FVal → FVal :=
  fmono R.atan (FVal.fin (R.atanInf true)) (FVal.fin (R.atanInf false))

/-- `np.degrees` on cells. -/
def frad2deg (R : RealOps) : FVal → FVal :=
  fmono R.rad2deg (FVal.inf true) (FVal.inf false)

/-- `np.tan` on cells: `tan(±∞) = NaN`. -/
def ftan (R : RealOps) : FVal → FVal := fmono R.tan FVal.nan FVal.nan

/-- `FeatureEngineer.compute_slope_aspect(dem, cell_size)`: slope in
degrees `degrees(arctan(sqrt(dx² + dy²)))` and aspect
`(degrees(arctan2(-dy, dx)) + 360) mod 360` (the mod-360 normalisation is
abstracted as `R.mod360`). -/
def slopeAspect (R : RealOps) (dem : ArrV) (cellSize : ℚ) : ArrV × ArrV :=
  let dy := gradAxis0 dem cellSize
  let dx := gradAxis1 dem cellSize
  (zipGrid (fun gx gy =>
      frad2deg R (fatan R (fsqrt R.sqrt (fadd (fmul gx gx) (fmul gy gy))))) dx dy,
   zipGrid (fun gx gy => R.mod360 (frad2deg R (R.atan2v (fneg gy) gx))) dx dy)

/-- Half-sample symmetric boundary reflection (scipy `boundary='symm'`):
indices reflect about the array edge with the edge sample repeated. -/
def reflectSymm (n : ℕ) (i : ℤ) : ℕ :=
  let m := (i % (2 * (n : ℤ))).toNat
  if m < n then m else 2 * n - 1 - m

/-- `scipy.signal.convolve2d(g, ones(w,w)/w², mode='same',
boundary='symm')` for odd `w`: the kernel-weighted sum over the reflected
neighbourhood (written as a true convolution, `In[i+h-a][j+h-b]`). -/
def convolveUniformSymm (g : ArrV) (w : ℕ) : ArrV :=
  let h : ℤ := ((w : ℤ) - 1) / 2
  (List.range g.length).map fun i => (List.range (ncols g)).map fun j =>
    (((List.range w).map fun a => (List.range w).map fun b =>
        fmul (FVal.fin (1 / ((w : ℚ) * w)))
          (gget g (reflectSymm g.length ((i : ℤ) + h - a))
            (reflectSymm (ncols g) ((j : ℤ) + h - b)))).flatten).foldr fadd (FVal.fin 0)

/-- `FeatureEngineer.compute_tpi(dem, window_size)`:
`dem - convolve2d(dem, ones(w,w)/w², mode='same', boundary='symm')`. -/
def computeTpi (dem : ArrV) (windowSize : ℕ) : ArrV :=
  zipGrid fsub dem (convolveUniformSymm dem windowSize)

/-- The three outputs of `compute_curvature`. -/
structure Curvature where
  profile : ArrV
  plan : ArrV
  total : ArrV

/-- `(rows, cols)` of the profile-curvature expression, reading the five
gradient grids: `-(dxx·dx² + 2·dxy·dx·dy + dyy·dy²) / (p·sqrt(p+1e-10))`. -/
def profileFrom (R : RealOps) (rows cols : ℕ) (dx dy dxx dxy dyy : ArrV) : ArrV :=
  (List.range rows).map fun i => (List.range cols).map fun j =>
    let gx := gget dx i j
    let gy := gget dy i j
    let p := fadd (fmul gx gx) (fmul gy gy)
    fdiv (fneg (fadd (fadd (fmul (gget dxx i j) (fmul gx gx))
        (fmul (fmul (fmul (FVal.fin 2) (gget dxy i j)) gx) gy))
        (fmul (gget dyy i j) (fmul gy gy))))
      (fmul p (fsqrt R.sqrt (fadd p (FVal.fin (1 / 10000000000)))))

/-- The plan-curvature expression:
`(dxx·dy² - 2·dxy·dx·dy + dyy·dx²) / (p**1.5 + 1e-10)`. -/
def planFrom (R : RealOps) (rows cols : ℕ) (dx dy dxx dxy dyy : ArrV) : ArrV :=
  (List.range rows).map fun i => (List.range cols).map fun j =>
    let gx := gget dx i j
    let gy := gget dy i j
    let p := fadd (fmul gx gx) (fmul gy gy)
    fdiv (fadd (fsub (fmul (gget dxx i j) (fmul gy gy))
        (fmul (fmul (fmul (FVal.fin 2) (gget dxy i j)) gx) gy))
        (fmul (gget dyy i j) (fmul gx gx)))
      (fadd (fmul p (fsqrt R.sqrt p)) (FVal.fin (1 / 10000000000)))

/-- `FeatureEngineer.compute_curvature(dem, cell_size)`: first and second
finite-difference derivatives, then
`profile = -(dxx·dx² + 2·dxy·dx·dy + dyy·dy²) / (p · sqrt(p + 1e-10))`,
`plan = (dxx·dy² - 2·dxy·dx·dy + dyy·dx²) / (p^1.5 + 1e-10)`,
`total = dxx + dyy`, with `p = dx² + dy²` (`p**1.5` is `p·sqrt(p)`). -/
def computeCurvature (R : RealOps) (dem : ArrV) (cellSize : ℚ) : Curvature :=
  let dy := gradAxis0 dem cellSize
  let dx := gradAxis1 dem cellSize
  let dyy := gradAxis0 dy cellSize
  let dxy := gradAxis0 dx cellSize
  let dxx := gradAxis1 dx cellSize
  { profile := profileFrom R dem.length (ncols dem) dx dy dxx dxy dyy
  , plan := planFrom R dem.length (ncols dem) dx dy dxx dxy dyy
  , total := zipGrid fadd dxx dyy }

/-- `FeatureEngineer._compute_slope_radians(dem, cell_size)`:
`arctan(sqrt(dx² + dy²))`. -/
def slopeRadians (R : RealOps) (dem : ArrV) (cellSize : ℚ) : ArrV :=
  zipGrid (fun gx gy => fatan R (fsqrt R.sqrt (fadd (fmul gx gx) (fmul gy gy))))
    (gradAxis1 dem cellSize) (gradAxis0 dem cellSize)

/-- `FeatureEngineer.compute_twi(dem, flow_accumulation, cell_size)`:
`ln((flow_accumulation + 1) / (tan(slope_rad) + twi_epsilon))`, then
infinities replaced by NaN. -/
def computeTwi (R : RealOps) (dem flowAccumulation : ArrV) (cellSize eps : ℚ) : ArrV :=
  let slopeRad := slopeRadians R dem cellSize
  let twi := zipGrid (fun fa sr =>
      flog R.log (fdiv (fadd fa (FVal.fin 1)) (fadd (ftan R sr) (FVal.fin eps))))
    flowAccumulation slopeRad
  mapGrid clearInf twi

/-- The constant grid (`np.full`-style value). -/
def constGrid (rows cols : ℕ) (v : FVal) : ArrV :=
  List.replicate rows (List.replicate cols v)

set_option maxHeartbeats 2000000 in
/-- C4: evaluation of the code at a perfectly flat DEM (2×2, constant
1000, `cell_size = 1000`, default TPI window 3).  Slope is 0 everywhere,
TPI is 0 everywhere, plan and total curvature are 0 everywhere — but
PROFILE curvature is NaN (missing) at every cell: on flat terrain
`p = dx² + dy² = 0`, and the profile denominator `p * sqrt(p + 1e-10)`
multiplies the stabilized square root by `p = 0`, so the division is
`0/0 = NaN`.  The `1e-10` stabilizer sits inside the square root where it
cannot prevent the division by zero (the plan denominator
`p**1.5 + 1e-10` adds it correctly).  This contradicts the stated
behaviour that all three curvature outputs are 0 on flat grids with no
missing values produced. -/
theorem curvature_flat_profile_nan :
    (slopeAspect ratOps (constGrid 2 2 (fin 1000)) 1000).1 = constGrid 2 2 (fin 0) ∧
    computeTpi (constGrid 2 2 (fin 1000)) 3 = constGrid 2 2 (fin 0) ∧
    (computeCurvature ratOps (constGrid 2 2 (fin 1000)) 1000).plan = constGrid 2 2 (fin 0) ∧
    (computeCurvature ratOps (constGrid 2 2 (fin 1000)) 1000).total = constGrid 2 2 (fin 0) ∧
    (computeCurvature ratOps (constGrid 2 2 (fin 1000)) 1000).profile
      = constGrid 2 2 FVal.nan := by
  refine ⟨?_, ?_, ?_, ?_, ?_⟩
  · norm_num [slopeAspect, gradAxis0, gradAxis1, zipGrid, gget, constGrid, ncols,
      fadd, fsub, fneg, fmul, fdiv, fsqrt, fatan, frad2deg, fmono, ratOps, List.range_succ,
      List.replicate_succ]
  · norm_num [computeTpi, convolveUniformSymm, reflectSymm, zipGrid, gget, constGrid, ncols,
      fadd, fsub, fneg, fmul, List.range_succ, List.replicate_succ, Int.toNat]
  · norm_num [computeCurvature, profileFrom, planFrom, gradAxis0, gradAxis1, zipGrid, gget,
      constGrid, ncols, fadd, fsub, fneg, fmul, fdiv, fsqrt, ratOps, List.range_succ,
      List.replicate_succ]
  · norm_num [computeCurvature, profileFrom, planFrom, gradAxis0, gradAxis1, zipGrid, gget,
      constGrid, ncols, fadd, fsub, fneg, fmul, fdiv, fsqrt, ratOps, List.range_succ,
      List.replicate_succ]
  · norm_num [computeCurvature, profileFrom, planFrom, gradAxis0, gradAxis1, zipGrid, gget,
      constGrid, ncols, fadd, fsub, fneg, fmul, fdiv, fsqrt, ratOps, List.range_succ,
      List.replicate_succ]

/-! ## Frame properties: no `FeatureEngineer` operation mutates its inputs

Array state is made explicit: a `Store` maps array identifiers to values.
Every numpy expression statement of the source allocates a fresh result
array (`alloc`) — the source applies no in-place operator and no `out=`
argument to any input.  The only in-place mutations in the covered
functions are slice assignments, modelled as explicit `writeArr` writes on
their target: `spi[:, i, j] = ...` writes the array created by
`np.zeros_like(precipitation)`, and `lag_features[...][:lag] = np.nan`
writes the array returned by `np.roll`.  Note that when `timescale ≤ 1`,
`precip_sum = precipitation` aliases the input array — the model keeps the
alias and shows the loop still writes only the fresh output. -/

structure Store where
  mem : ℕ → ArrV
  nxt : ℕ

/-- Allocate a fresh array holding `v`; returns its identifier. -/
def alloc (σ : Store) (v : ArrV) : Store × ℕ :=
  (⟨fun i => if i = σ.nxt then v else σ.mem i, σ.nxt + 1⟩, σ.nxt)

/-- Overwrite the array `a` (a slice-assignment statement). -/
def writeArr (σ : Store) (a : ℕ) (v : ArrV) : Store :=
  ⟨fun i => if i = a then v else σ.mem i, σ.nxt⟩

/-- The heap of every array that existed before the call is untouched, and
no identifier was reused. -/
def FrameOK (σ σ2 : Store) : Prop :=
  σ.nxt ≤ σ2.nxt ∧ ∀ i, i < σ.nxt → σ2.mem i = σ.mem i

lemma frameOK_refl (σ : Store) : FrameOK σ σ := ⟨le_refl _, fun _ _ => rfl⟩

lemma frameOK_trans {σ1 σ2 σ3 : Store} (h1 : FrameOK σ1 σ2) (h2 : FrameOK σ2 σ3) :
    FrameOK σ1 σ3 :=
  ⟨le_trans h1.1 h2.1, fun i hi => (h2.2 i (lt_of_lt_of_le hi h1.1)).trans (h1.2 i hi)⟩

lemma alloc_frame (σ : Store) (v : ArrV) : FrameOK σ (alloc σ v).1 := by
  refine ⟨by simp [alloc], fun i hi => ?_⟩
  simp only [alloc]
  rw [if_neg (by omega)]

lemma alloc_fresh (σ : Store) (v : ArrV) : (alloc σ v).2 = σ.nxt := rfl

lemma alloc_nxt (σ : Store) (v : ArrV) : (alloc σ v).1.nxt = σ.nxt + 1 := rfl

lemma writeArr_frame (σ σ0 : Store) (a : ℕ) (v : ArrV) (ha : σ0.nxt ≤ a)
    (h : FrameOK σ0 σ) : FrameOK σ0 (writeArr σ a v) := by
  refine ⟨h.1, fun i hi => ?_⟩
  show (if i = a then v else σ.mem i) = σ0.mem i
  rw [if_neg (by omega), h.2 i hi]

lemma foldl_frame {β : Type} (σ0 : Store) (f : Store × β → ℕ → Store × β)
    (hf : ∀ a p, FrameOK σ0 a.1 → FrameOK σ0 (f a p).1) :
    ∀ (l : List ℕ) (a : Store × β), FrameOK σ0 a.1 → FrameOK σ0 (l.foldl f a).1 := by
  intro l
  induction l with
  | nil => intro a h; exact h
  | cons x xs ih => intro a h; exact ih (f a x) (hf a x h)

/-- Elementwise combination of three equal-shape grids. -/
def zipGrid3 (f : FVal → FVal → FVal → FVal) (a b c : ArrV) : ArrV :=
  map3 (fun ra rb rc => map3 f ra rb rc) a b c

/-- `np.zeros_like(a)`. -/
def zerosLike (a : ArrV) : ArrV := a.map (fun r => r.map (fun _ => FVal.fin 0))

/-- The slice assignment `spi[:, i, j] = col` on the value level. -/
def writeColInto (a : ArrV) (p : ℕ) (col : List FVal) : ArrV :=
  (List.range a.length).map fun t => (a.getD t []).set p (col.getD t FVal.nan)

/-- Store-level `compute_twi(dem, flow_accumulation, cell_size)`. -/
def computeTwiSt (R : RealOps) (σ : Store) (demId flowId : ℕ) (cs eps : ℚ) :
    Store × ℕ :=
  let (σ1, slopeId) := alloc σ (slopeRadians R (σ.mem demId) cs)
  let (σ2, twiId) := alloc σ1 (zipGrid (fun fa sr =>
      flog R.log (fdiv (fadd fa (FVal.fin 1)) (fadd (ftan R sr) (FVal.fin eps))))
    (σ1.mem flowId) (σ1.mem slopeId))
  let (σ3, outId) := alloc σ2 (mapGrid clearInf (σ2.mem twiId))
  (σ3, outId)

/-- Store-level `compute_tpi(dem, window_size)`. -/
def computeTpiSt (σ : Store) (demId : ℕ) (w : ℕ) : Store × ℕ :=
  let (σ1, meanId) := alloc σ (convolveUniformSymm (σ.mem demId) w)
  let (σ2, tpiId) := alloc σ1 (zipGrid fsub (σ1.mem demId) (σ1.mem meanId))
  (σ2, tpiId)

/-- Store-level `compute_slope_aspect(dem, cell_size)`. -/
def slopeAspectSt (R : RealOps) (σ : Store) (demId : ℕ) (cs : ℚ) :
    Store × (ℕ × ℕ) :=
  let (σ1, dyId) := alloc σ (gradAxis0 (σ.mem demId) cs)
  let (σ2, dxId) := alloc σ1 (gradAxis1 (σ1.mem demId) cs)
  let (σ3, slopeId) := alloc σ2 (zipGrid (fun gx gy =>
      frad2deg R (fatan R (fsqrt R.sqrt (fadd (fmul gx gx) (fmul gy gy)))))
    (σ2.mem dxId) (σ2.mem dyId))
  let (σ4, aspectId) := alloc σ3 (zipGrid (fun gx gy =>
      R.mod360 (frad2deg R (R.atan2v (fneg gy) gx))) (σ3.mem dxId) (σ3.mem dyId))
  (σ4, (slopeId, aspectId))

/-- Store-level `compute_curvature(dem, cell_size)` (the source also
computes the unused `dyx`; it is one more allocation). -/
def curvatureSt (R : RealOps) (σ : Store) (demId : ℕ) (cs : ℚ) :
    Store × (ℕ × ℕ × ℕ) :=
  let (σ1, dyId) := alloc σ (gradAxis0 (σ.mem demId) cs)
  let (σ2, dxId) := alloc σ1 (gradAxis1 (σ1.mem demId) cs)
  let (σ3, dyyId) := alloc σ2 (gradAxis0 (σ2.mem dyId) cs)
  let (σ4, _dyxId) := alloc σ3 (gradAxis1 (σ3.mem dyId) cs)
  let (σ5, dxyId) := alloc σ4 (gradAxis0 (σ4.mem dxId) cs)
  let (σ6, dxxId) := alloc σ5 (gradAxis1 (σ5.mem dxId) cs)
  let (σ7, proId) := alloc σ6 (profileFrom R (σ6.mem demId).length (ncols (σ6.mem demId))
    (σ6.mem dxId) (σ6.mem dyId) (σ6.mem dxxId) (σ6.mem dxyId) (σ6.mem dyyId))
  let (σ8, planId) := alloc σ7 (planFrom R (σ7.mem demId).length (ncols (σ7.mem demId))
    (σ7.mem dxId) (σ7.mem dyId) (σ7.mem dxxId) (σ7.mem dxyId) (σ7.mem dyyId))
  let (σ9, totId) := alloc σ8 (zipGrid fadd (σ8.mem dxxId) (σ8.mem dyyId))
  (σ9, (proId, planId, totId))

/-- Store-level `compute_pet_hargreaves(temperature)` on the single-array
path (the one `generate_all_features`/`compute_spei` use): `t ± 5`, the
Hargreaves product, then `np.maximum(pet, 0)` — four allocations, no
write to the input. -/
def computePetSt (R : RealOps) (σ : Store) (tempId : ℕ) : Store × ℕ :=
  let (σ1, tmaxId) := alloc σ (mapGrid (fun x => fadd x (FVal.fin 5)) (σ.mem tempId))
  let (σ2, tminId) := alloc σ1 (mapGrid (fun x => fsub x (FVal.fin 5)) (σ1.mem tempId))
  let (σ3, petId) := alloc σ2 (zipGrid3 (petCell R) (σ2.mem tempId) (σ2.mem tmaxId)
    (σ2.mem tminId))
  let (σ4, outId) := alloc σ3 (mapGrid (fun x => fmax x (FVal.fin 0)) (σ3.mem petId))
  (σ4, outId)

/-- Store-level `compute_spi(precipitation, timescale, distribution)`:
allocates `spi = np.zeros_like(precipitation)`; when `timescale ≤ 1`,
`precip_sum = precipitation` ALIASES the input identifier; the per-pixel
loop reads `precip_sum` and writes each column into the fresh `spi`
array only; `np.where` allocates the output. -/
def computeSpiSt (R : RealOps) (O : SpiOps) (dist : String) (ts : ℕ)
    (σ : Store) (precipId : ℕ) : Store × ℕ :=
  let (σ1, spiId) := alloc σ (zerosLike (σ.mem precipId))
  let s2 : Store × ℕ :=
    if 1 < ts then alloc σ1 (rollingSum (σ1.mem precipId) ts) else (σ1, precipId)
  let σ3 := (List.range (ncols (s2.1.mem precipId))).foldl
    (fun τ p => writeArr τ spiId
      (writeColInto (τ.mem spiId) p (spiColumn R O dist (column p (τ.mem s2.2))))) s2.1
  let (σ4, outId) := alloc σ3 (mapGrid clearInf (σ3.mem spiId))
  (σ4, outId)

/-- One iteration of the `create_lag_features` loop: `np.roll` allocates a
fresh copy and the slice assignment `[:lag] = NaN` writes that fresh copy
in place; lags `≥` the series length leave the state unchanged. -/
def lagStep (dataId : ℕ) (acc : Store × List (ℕ × ℕ)) (lag : ℕ) :
    Store × List (ℕ × ℕ) :=
  if lag < (acc.1.mem dataId).length then
    let (σ1, rid) := alloc acc.1 (nproll (acc.1.mem dataId) lag)
    let σ2 := writeArr σ1 rid (setHeadNaN (σ1.mem rid) lag)
    (σ2, acc.2 ++ [(lag, rid)])
  else acc

/-- Store-level `create_lag_features(data, lag_periods)`. -/
def createLagFeaturesSt (σ : Store) (dataId : ℕ) (lags : List ℕ) :
    Store × List (ℕ × ℕ) :=
  lags.foldl (lagStep dataId) (σ, [])

/-- Store-level `compute_temporal_statistics(data)`: the five outputs are
fresh (the internal `slopes[i] = slope` writes target the freshly
allocated `np.zeros` slopes array, folded into the trend allocation). -/
def temporalStatsSt (R : RealOps) (σ : Store) (dataId : ℕ) :
    Store × (ℕ × ℕ × ℕ × ℕ × ℕ) :=
  let (σ1, a1) := alloc σ [(computeTemporalStatistics R (σ.mem dataId)).mean]
  let (σ2, a2) := alloc σ1 [(computeTemporalStatistics R (σ1.mem dataId)).std]
  let (σ3, a3) := alloc σ2 [(computeTemporalStatistics R (σ2.mem dataId)).min]
  let (σ4, a4) := alloc σ3 [(computeTemporalStatistics R (σ3.mem dataId)).max]
  let (σ5, a5) := alloc σ4 [(computeTemporalStatistics R (σ4.mem dataId)).trend]
  (σ5, (a1, a2, a3, a4, a5))

/-- Store-level `compute_spei(precipitation, temperature, timescale)`:
PET, then `water_balance = precipitation - pet` (allocation), then SPI
with the normal distribution on the water balance. -/
def computeSpeiSt (R : RealOps) (O : SpiOps) (ts : ℕ) (σ : Store)
    (precipId tempId : ℕ) : Store × ℕ :=
  let (σ1, petId) := computePetSt R σ tempId
  let (σ2, wbId) := alloc σ1 (zipGrid fsub (σ1.mem precipId) (σ1.mem petId))
  computeSpiSt R O "normal" ts σ2 wbId

/-- The `dem` block of `generate_all_features`: slope/aspect, TPI,
curvature, and TWI when `flow_accumulation` is present. -/
def genTerrain (R : RealOps) (σ : Store) (demId flowId : Option ℕ) (cs twiEps : ℚ) :
    Store × List (String × ℕ) :=
  match demId with
  | none => (σ, [])
  | some dem =>
    let (σ1, sa) := slopeAspectSt R σ dem cs
    let (σ2, tpiId) := computeTpiSt σ1 dem 3
    let (σ3, cur) := curvatureSt R σ2 dem cs
    let base := [("slope", sa.1), ("aspect", sa.2), ("tpi", tpiId),
      ("curvature_profile", cur.1), ("curvature_plan", cur.2.1),
      ("curvature_total", cur.2.2)]
    match flowId with
    | none => (σ3, base)
    | some fl =>
      let (σ4, twiId) := computeTwiSt R σ3 dem fl cs twiEps
      (σ4, base ++ [("twi", twiId)])

/-- The `precipitation` block of `generate_all_features`: SPI per
configured timescale plus the temporal statistics. -/
def genPrecip (R : RealOps) (O : SpiOps) (acc : Store × List (String × ℕ))
    (precipId : Option ℕ) (spiTs : List ℕ) : Store × List (String × ℕ) :=
  match precipId with
  | none => acc
  | some pr =>
    let spis := spiTs.foldl (fun a ts =>
      let (τ2, spiId) := computeSpiSt R O "gamma" ts a.1 pr
      (τ2, a.2 ++ [("spi", spiId)])) acc
    let (τ3, st5) := temporalStatsSt R spis.1 pr
    (τ3, spis.2 ++ [("precip_mean", st5.1), ("precip_std", st5.2.1),
      ("precip_min", st5.2.2.1), ("precip_max", st5.2.2.2.1),
      ("precip_trend", st5.2.2.2.2)])

/-- The `temperature` + `precipitation` block of `generate_all_features`:
SPEI per configured timescale, PET, and the water balance. -/
def genTemp (R : RealOps) (O : SpiOps) (acc : Store × List (String × ℕ))
    (precipId tempId : Option ℕ) (speiTs : List ℕ) : Store × List (String × ℕ) :=
  match precipId, tempId with
  | some pr, some te =>
    let speis := speiTs.foldl (fun a ts =>
      let (τ2, speiId) := computeSpeiSt R O ts a.1 pr te
      (τ2, a.2 ++ [("spei", speiId)])) acc
    let (τ4, petId) := computePetSt R speis.1 te
    let (τ5, wbId) := alloc τ4 (zipGrid fsub (τ4.mem pr) (τ4.mem petId))
    (τ5, speis.2 ++ [("pet", petId), ("water_balance", wbId)])
  | _, _ => acc

/-- Store-level `generate_all_features(data_dict, cell_size)`: terrain
features when `dem` is present (TWI additionally needs
`flow_accumulation`), SPI per configured timescale plus temporal
statistics when `precipitation` is present, and SPEI/PET/water balance
when both `precipitation` and `temperature` are present. -/
def generateAllFeaturesSt (R : RealOps) (O : SpiOps) (σ : Store)
    (demId flowId precipId tempId : Option ℕ) (cs twiEps : ℚ)
    (spiTs speiTs : List ℕ) : Store × List (String × ℕ) :=
  genTemp R O (genPrecip R O (genTerrain R σ demId flowId cs twiEps) precipId spiTs)
    precipId tempId speiTs

lemma foldl_frame_store (σ0 : Store) (f : Store → ℕ → Store)
    (hf : ∀ τ p, FrameOK σ0 τ → FrameOK σ0 (f τ p)) :
    ∀ (l : List ℕ) (τ : Store), FrameOK σ0 τ → FrameOK σ0 (l.foldl f τ) := by
  intro l
  induction l with
  | nil => intro τ h; exact h
  | cons x xs ih => intro τ h; exact ih (f τ x) (hf τ x h)

lemma computeTwiSt_frame (R : RealOps) (σ : Store) (demId flowId : ℕ) (cs eps : ℚ) :
    FrameOK σ (computeTwiSt R σ demId flowId cs eps).1 ∧
      σ.nxt ≤ (computeTwiSt R σ demId flowId cs eps).2 :=
  ⟨frameOK_trans (alloc_frame _ _) (frameOK_trans (alloc_frame _ _) (alloc_frame _ _)),
   by simp only [computeTwiSt, alloc]; omega⟩

lemma computeTpiSt_frame (σ : Store) (demId w : ℕ) :
    FrameOK σ (computeTpiSt σ demId w).1 ∧ σ.nxt ≤ (computeTpiSt σ demId w).2 :=
  ⟨frameOK_trans (alloc_frame _ _) (alloc_frame _ _), by simp only [computeTpiSt, alloc]; omega⟩

lemma slopeAspectSt_frame (R : RealOps) (σ : Store) (demId : ℕ) (cs : ℚ) :
    FrameOK σ (slopeAspectSt R σ demId cs).1 ∧
      σ.nxt ≤ (slopeAspectSt R σ demId cs).2.1 ∧
      σ.nxt ≤ (slopeAspectSt R σ demId cs).2.2 :=
  ⟨frameOK_trans (alloc_frame _ _) (frameOK_trans (alloc_frame _ _)
      (frameOK_trans (alloc_frame _ _) (alloc_frame _ _))),
   by simp only [slopeAspectSt, alloc]; omega, by simp only [slopeAspectSt, alloc]; omega⟩

lemma curvatureSt_frame (R : RealOps) (σ : Store) (demId : ℕ) (cs : ℚ) :
    FrameOK σ (curvatureSt R σ demId cs).1 ∧
      σ.nxt ≤ (curvatureSt R σ demId cs).2.1 ∧
      σ.nxt ≤ (curvatureSt R σ demId cs).2.2.1 ∧
      σ.nxt ≤ (curvatureSt R σ demId cs).2.2.2 :=
  ⟨frameOK_trans (alloc_frame _ _) (frameOK_trans (alloc_frame _ _)
      (frameOK_trans (alloc_frame _ _) (frameOK_trans (alloc_frame _ _)
        (frameOK_trans (alloc_frame _ _) (frameOK_trans (alloc_frame _ _)
          (frameOK_trans (alloc_frame _ _) (frameOK_trans (alloc_frame _ _)
            (alloc_frame _ _)))))))),
   by simp only [curvatureSt, alloc]; omega, by simp only [curvatureSt, alloc]; omega,
   by simp only [curvatureSt, alloc]; omega⟩

lemma computePetSt_frame (R : RealOps) (σ : Store) (tempId : ℕ) :
    FrameOK σ (computePetSt R σ tempId).1 ∧ σ.nxt ≤ (computePetSt R σ tempId).2 :=
  ⟨frameOK_trans (alloc_frame _ _) (frameOK_trans (alloc_frame _ _)
      (frameOK_trans (alloc_frame _ _) (alloc_frame _ _))),
   by simp only [computePetSt, alloc]; omega⟩

lemma computeSpiSt_frame (R : RealOps) (O : SpiOps) (dist : String) (ts : ℕ)
    (σ : Store) (precipId : ℕ) :
    FrameOK σ (computeSpiSt R O dist ts σ precipId).1 ∧
      σ.nxt ≤ (computeSpiSt R O dist ts σ precipId).2 := by
  have h1 : FrameOK σ (alloc σ (zerosLike (σ.mem precipId))).1 := alloc_frame _ _
  set σ1 := (alloc σ (zerosLike (σ.mem precipId))).1 with hσ1
  set spiId := (alloc σ (zerosLike (σ.mem precipId))).2 with hspi
  have hid : spiId = σ.nxt := rfl
  set s2 : Store × ℕ :=
    if 1 < ts then alloc σ1 (rollingSum (σ1.mem precipId) ts) else (σ1, precipId) with hs2
  have h2 : FrameOK σ s2.1 := by
    rw [hs2]
    split
    · exact frameOK_trans h1 (alloc_frame _ _)
    · exact h1
  have h3 : FrameOK σ ((List.range (ncols (s2.1.mem precipId))).foldl
      (fun τ p => writeArr τ spiId
        (writeColInto (τ.mem spiId) p (spiColumn R O dist (column p (τ.mem s2.2))))) s2.1) := by
    apply foldl_frame_store σ _ _ _ _ h2
    intro τ p hτ
    exact writeArr_frame τ σ spiId _ (by omega) hτ
  constructor
  · exact frameOK_trans h3 (alloc_frame _ _)
  · show σ.nxt ≤ ((List.range (ncols (s2.1.mem precipId))).foldl _ s2.1).nxt
    exact h3.1

lemma lagStep_frame (σ0 : Store) (dataId : ℕ) (acc : Store × List (ℕ × ℕ)) (lag : ℕ)
    (h1 : FrameOK σ0 acc.1) (h2 : ∀ e ∈ acc.2, σ0.nxt ≤ e.2) :
    FrameOK σ0 (lagStep dataId acc lag).1 ∧
      ∀ e ∈ (lagStep dataId acc lag).2, σ0.nxt ≤ e.2 := by
  unfold lagStep
  split
  · constructor
    · exact writeArr_frame _ σ0 _ _ (by exact h1.1) (frameOK_trans h1 (alloc_frame _ _))
    · intro e he
      rcases List.mem_append.mp he with h | h
      · exact h2 e h
      · have : e = (lag, (alloc acc.1 (nproll (acc.1.mem dataId) lag)).2) := by
          simpa using h
        rw [this]
        exact h1.1
  · exact ⟨h1, h2⟩

lemma createLagFeaturesSt_frame (σ : Store) (dataId : ℕ) (lags : List ℕ) :
    FrameOK σ (createLagFeaturesSt σ dataId lags).1 ∧
      ∀ e ∈ (createLagFeaturesSt σ dataId lags).2, σ.nxt ≤ e.2 := by
  unfold createLagFeaturesSt
  have key : ∀ (l : List ℕ) (acc : Store × List (ℕ × ℕ)),
      FrameOK σ acc.1 → (∀ e ∈ acc.2, σ.nxt ≤ e.2) →
      FrameOK σ (l.foldl (lagStep dataId) acc).1 ∧
        ∀ e ∈ (l.foldl (lagStep dataId) acc).2, σ.nxt ≤ e.2 := by
    intro l
    induction l with
    | nil => intro acc h1 h2; exact ⟨h1, h2⟩
    | cons x xs ih =>
      intro acc h1 h2
      rw [List.foldl_cons]
      obtain ⟨g1, g2⟩ := lagStep_frame σ dataId acc x h1 h2
      exact ih (lagStep dataId acc x) g1 g2
  exact key lags (σ, []) (frameOK_refl σ) (by simp)

lemma temporalStatsSt_frame (R : RealOps) (σ : Store) (dataId : ℕ) :
    FrameOK σ (temporalStatsSt R σ dataId).1 :=
  frameOK_trans (alloc_frame _ _) (frameOK_trans (alloc_frame _ _)
    (frameOK_trans (alloc_frame _ _) (frameOK_trans (alloc_frame _ _) (alloc_frame _ _))))

lemma computeSpeiSt_frame (R : RealOps) (O : SpiOps) (ts : ℕ) (σ : Store)
    (precipId tempId : ℕ) :
    FrameOK σ (computeSpeiSt R O ts σ precipId tempId).1 ∧
      σ.nxt ≤ (computeSpeiSt R O ts σ precipId tempId).2 := by
  have h1 := (computePetSt_frame R σ tempId).1
  have h2 : FrameOK σ (alloc (computePetSt R σ tempId).1
      (zipGrid fsub ((computePetSt R σ tempId).1.mem precipId)
        ((computePetSt R σ tempId).1.mem (computePetSt R σ tempId).2))).1 :=
    frameOK_trans h1 (alloc_frame _ _)
  have h3 := computeSpiSt_frame R O "normal" ts
    (alloc (computePetSt R σ tempId).1
      (zipGrid fsub ((computePetSt R σ tempId).1.mem precipId)
        ((computePetSt R σ tempId).1.mem (computePetSt R σ tempId).2))).1
    (alloc (computePetSt R σ tempId).1
      (zipGrid fsub ((computePetSt R σ tempId).1.mem precipId)
        ((computePetSt R σ tempId).1.mem (computePetSt R σ tempId).2))).2
  exact ⟨frameOK_trans h2 h3.1, le_trans h2.1 h3.2⟩

lemma genTerrain_frame (R : RealOps) (σ : Store) (demId flowId : Option ℕ)
    (cs twiEps : ℚ) : FrameOK σ (genTerrain R σ demId flowId cs twiEps).1 := by
  unfold genTerrain
  rcases demId with - | dem
  · exact frameOK_refl σ
  · rcases flowId with - | fl
    · exact frameOK_trans (slopeAspectSt_frame R σ dem cs).1
        (frameOK_trans (computeTpiSt_frame _ dem 3).1 (curvatureSt_frame R _ dem cs).1)
    · exact frameOK_trans (slopeAspectSt_frame R σ dem cs).1
        (frameOK_trans (computeTpiSt_frame _ dem 3).1
          (frameOK_trans (curvatureSt_frame R _ dem cs).1
            (computeTwiSt_frame R _ dem fl cs twiEps).1))

lemma genPrecip_frame (R : RealOps) (O : SpiOps) (σ0 : Store)
    (acc : Store × List (String × ℕ)) (precipId : Option ℕ) (spiTs : List ℕ)
    (h : FrameOK σ0 acc.1) : FrameOK σ0 (genPrecip R O acc precipId spiTs).1 := by
  unfold genPrecip
  rcases precipId with - | pr
  · exact h
  · have hf := foldl_frame σ0 (fun a ts =>
      let x := computeSpiSt R O "gamma" ts a.1 pr
      (x.1, a.2 ++ [("spi", x.2)]))
      (fun a p ha => frameOK_trans ha (computeSpiSt_frame R O "gamma" p a.1 pr).1)
      spiTs acc h
    exact frameOK_trans hf (temporalStatsSt_frame R _ pr)

lemma genTemp_frame (R : RealOps) (O : SpiOps) (σ0 : Store)
    (acc : Store × List (String × ℕ)) (precipId tempId : Option ℕ) (speiTs : List ℕ)
    (h : FrameOK σ0 acc.1) : FrameOK σ0 (genTemp R O acc precipId tempId speiTs).1 := by
  unfold genTemp
  rcases precipId with - | pr
  · exact h
  · rcases tempId with - | te
    · exact h
    · have hf := foldl_frame σ0 (fun a ts =>
        let x := computeSpeiSt R O ts a.1 pr te
        (x.1, a.2 ++ [("spei", x.2)]))
        (fun a p ha => frameOK_trans ha (computeSpeiSt_frame R O p a.1 pr te).1)
        speiTs acc h
      exact frameOK_trans hf (frameOK_trans (computePetSt_frame R _ te).1 (alloc_frame _ _))

lemma generateAllFeaturesSt_frame (R : RealOps) (O : SpiOps) (σ : Store)
    (demId flowId precipId tempId : Option ℕ) (cs twiEps : ℚ)
    (spiTs speiTs : List ℕ) :
    FrameOK σ (generateAllFeaturesSt R O σ demId flowId precipId tempId cs twiEps
      spiTs speiTs).1 := by
  unfold generateAllFeaturesSt
  exact genTemp_frame R O σ _ precipId tempId speiTs
    (genPrecip_frame R O σ _ precipId spiTs (genTerrain_frame R σ demId flowId cs twiEps))

/-- C10: no `FeatureEngineer` operation mutates its inputs.  For every
store and arguments, after `compute_twi`, `compute_tpi`,
`compute_slope_aspect`, `compute_curvature`, `compute_spi`,
`compute_pet_hargreaves`, `create_lag_features` or
`generate_all_features`, every array that existed before the call — in
particular each input array — holds exactly the value it held before
(`FrameOK` says all pre-existing identifiers are untouched), and every
returned output identifier is freshly allocated.  The only in-place
writes in the sources target arrays created inside the call
(`np.zeros_like` for `spi`, the `np.roll` result for lag grids), which
the store model makes explicit — including the aliasing case
`precip_sum = precipitation` at `timescale ≤ 1`. -/
theorem feature_engineer_no_input_mutation (R : RealOps) (O : SpiOps) (σ : Store)
    (demId flowId precipId tempId dataId : ℕ)
    (odemId oflowId oprecipId otempId : Option ℕ)
    (cs eps twiEps : ℚ) (w ts : ℕ) (dist : String) (lags spiTs speiTs : List ℕ) :
    (FrameOK σ (computeTwiSt R σ demId flowId cs eps).1 ∧
      σ.nxt ≤ (computeTwiSt R σ demId flowId cs eps).2) ∧
    (FrameOK σ (computeTpiSt σ demId w).1 ∧ σ.nxt ≤ (computeTpiSt σ demId w).2) ∧
    (FrameOK σ (slopeAspectSt R σ demId cs).1 ∧
      σ.nxt ≤ (slopeAspectSt R σ demId cs).2.1 ∧
      σ.nxt ≤ (slopeAspectSt R σ demId cs).2.2) ∧
    (FrameOK σ (curvatureSt R σ demId cs).1 ∧
      σ.nxt ≤ (curvatureSt R σ demId cs).2.1 ∧
      σ.nxt ≤ (curvatureSt R σ demId cs).2.2.1 ∧
      σ.nxt ≤ (curvatureSt R σ demId cs).2.2.2) ∧
    (FrameOK σ (computeSpiSt R O dist ts σ precipId).1 ∧
      σ.nxt ≤ (computeSpiSt R O dist ts σ precipId).2) ∧
    (FrameOK σ (computePetSt R σ tempId).1 ∧ σ.nxt ≤ (computePetSt R σ tempId).2) ∧
    (FrameOK σ (createLagFeaturesSt σ dataId lags).1 ∧
      ∀ e ∈ (createLagFeaturesSt σ dataId lags).2, σ.nxt ≤ e.2) ∧
    FrameOK σ (generateAllFeaturesSt R O σ odemId oflowId oprecipId otempId cs twiEps
      spiTs speiTs).1 :=
  ⟨computeTwiSt_frame R σ demId flowId cs eps,
   computeTpiSt_frame σ demId w,
   slopeAspectSt_frame R σ demId cs,
   curvatureSt_frame R σ demId cs,
   computeSpiSt_frame R O dist ts σ precipId,
   computePetSt_frame R σ tempId,
   createLagFeaturesSt_frame σ dataId lags,
   generateAllFeaturesSt_frame R O σ odemId oflowId oprecipId otempId cs twiEps spiTs speiTs⟩
